import Mathlib

/-!
Verification of the POM dependency-version rewriting engine of
`workflow-scripts/update-consumer-dependency.py`.

Documents are modelled as `List Char`.  The three regular expressions of the
source (`_build_parent_pattern`, `_build_dependency_pattern`,
`_build_property_pattern`) are rendered as deterministic scanners: this is
exact for these particular patterns because every `\s*` and every `[^<]+`
or `[^<]*` run in them is followed by a literal `<` (or by `</`, or, for
`[^<]*>`, by a `>` whose viable positions all lead to the same continuation),
and neither character class contains `<`; hence the backtracking regex engine
has exactly one viable way to match at a given start position.  Whitespace is
modelled by the ASCII part of Python's `\s` (the documents involved are ASCII
XML).  `re.sub`'s replacement template `\g<1>{new_version}\3` is modelled as
`group1 ++ newVersion ++ group3`; this is Python's behaviour whenever the
substituted version string contains no backslash (a backslash would be
interpreted as a template escape), so theorems quantifying over the new
version carry that hypothesis where it matters.  Python's `print`-based
logging is modelled by an explicit list of `LogEvent`s returned alongside the
Python return tuple.
-/

set_option maxRecDepth 4096

namespace UCD

/-- The ASCII characters of Python's `\s` class (and of `str.strip()`). -/
def isWs (c : Char) : Bool :=
  c == ' ' || c == '\t' || c == '\n' || c == '\r' || c == '\x0b' || c == '\x0c'

/-- Not a `<` character: the `[^<]` class of the patterns. -/
def notLt (c : Char) : Bool := c != '<'

/-- Right part of Python's `str.strip()`. -/
def stripEnd (s : List Char) : List Char := (s.reverse.dropWhile isWs).reverse

/-- Python's `str.strip()`. -/
def strip (s : List Char) : List Char := stripEnd (s.dropWhile isWs)

/-- Match a literal (the `re.escape`d fragments of the patterns) at the start
of `s`, returning the remainder. -/
def dropLit (lit s : List Char) : Option (List Char) :=
  if lit.isPrefixOf s then some (s.drop lit.length) else none

def vOpen : List Char := "<version>".toList
def vClose : List Char := "</version>".toList
def gidLit (g : List Char) : List Char := "<groupId>".toList ++ g ++ "</groupId>".toList
def aidLit (a : List Char) : List Char := "<artifactId>".toList ++ a ++ "</artifactId>".toList
def tagOpen (nm : List Char) : List Char := '<' :: (nm ++ ['>'])
def tagClose (nm : List Char) : List Char := '<' :: '/' :: (nm ++ ['>'])

/-- One attempt of the parent pattern
`(<parent>\s*<groupId>G</groupId>\s*<artifactId>A</artifactId>\s*<version>)([^<]+)(</version>)`
at the start of `s`; returns `(group1, group2, rest after the match)`. -/
def matchParentHere (g a s : List Char) : Option (List Char × List Char × List Char) :=
  match dropLit "<parent>".toList s with
  | none => none
  | some s1 =>
    match dropLit (gidLit g) (s1.dropWhile isWs) with
    | none => none
    | some s2 =>
      match dropLit (aidLit a) (s2.dropWhile isWs) with
      | none => none
      | some s3 =>
        match dropLit vOpen (s3.dropWhile isWs) with
        | none => none
        | some s4 =>
          match s4.takeWhile notLt, dropLit vClose (s4.dropWhile notLt) with
          | [], _ => none
          | _, none => none
          | v :: vs, some s5 =>
            some ("<parent>".toList ++ s1.takeWhile isWs ++ gidLit g ++ s2.takeWhile isWs
                    ++ aidLit a ++ s3.takeWhile isWs ++ vOpen,
                  v :: vs, s5)

/-- One iteration of the dependency pattern's optional-element group
`(?:<[^v][^<]*</[^<]*>\s*)`: an opening `<` with a non-`v` next character, a
run to the next `<` which must begin `</`, then a run that (after the `>` and
the greedy `\s*`) must consist of material ending in `>` followed only by
whitespace before the next `<`.  Returns `(consumed text, rest)`. -/
def skipElemOne (s : List Char) : Option (List Char × List Char) :=
  match s with
  | '<' :: c :: rest =>
    if c == 'v' then none
    else
      match rest.dropWhile notLt with
      | '<' :: '/' :: r2 =>
        if (stripEnd (r2.takeWhile notLt)).getLast? == some '>' then
          some ('<' :: c :: rest.takeWhile notLt ++ '<' :: '/' :: r2.takeWhile notLt,
                r2.dropWhile notLt)
        else none
      | _ => none
  | _ => none

theorem dropWhile_length_le (p : Char → Bool) :
    ∀ l : List Char, (l.dropWhile p).length ≤ l.length
  | [] => le_refl _
  | a :: l => by
    rw [List.dropWhile_cons]
    split
    · exact le_trans (dropWhile_length_le p l) (by simp)
    · exact le_refl _

theorem skipElemOne_length {s c r : List Char} (h : skipElemOne s = some (c, r)) :
    r.length < s.length := by
  unfold skipElemOne at h
  split at h
  case h_2 => exact absurd h (by simp)
  case h_1 s x rest =>
    split at h
    · exact absurd h (by simp)
    · split at h
      case h_2 => exact absurd h (by simp)
      case h_1 r2 heq =>
        split at h
        · simp only [Option.some.injEq, Prod.mk.injEq] at h
          obtain ⟨h1, h2⟩ := h
          subst h2
          have h3 : (rest.dropWhile notLt).length ≤ rest.length :=
            dropWhile_length_le _ _
          have h4 : (r2.dropWhile notLt).length ≤ r2.length :=
            dropWhile_length_le _ _
          rw [heq] at h3
          simp only [List.length_cons] at h3 ⊢
          omega
        · exact absurd h (by simp)

/-- Fuel-indexed worker for `skipElems` (structural recursion on the fuel so
that the kernel can evaluate it). -/
def skipElemsF : Nat → List Char → List Char × List Char
  | 0, s => ([], s)
  | fuel + 1, s =>
    match skipElemOne s with
    | none => ([], s)
    | some (c, r) => (c ++ (skipElemsF fuel r).1, (skipElemsF fuel r).2)

theorem skipElemsF_fuel : ∀ (f1 f2 : Nat) (s : List Char), s.length ≤ f1 →
    s.length ≤ f2 → skipElemsF f1 s = skipElemsF f2 s := by
  intro f1
  induction f1 with
  | zero =>
    intro f2 s hs1 hs2
    have : s = [] := List.length_eq_zero.mp (by omega)
    subst this
    cases f2 with
    | zero => rfl
    | succ m => rfl
  | succ n ih =>
    intro f2 s hs1 hs2
    cases f2 with
    | zero =>
      have : s = [] := List.length_eq_zero.mp (by omega)
      subst this
      rfl
    | succ m =>
      show (match skipElemOne s with
        | none => ([], s)
        | some (c, r) => (c ++ (skipElemsF n r).1, (skipElemsF n r).2)) =
        (match skipElemOne s with
        | none => ([], s)
        | some (c, r) => (c ++ (skipElemsF m r).1, (skipElemsF m r).2))
      cases hm : skipElemOne s with
      | none => rfl
      | some cr =>
        obtain ⟨c, r⟩ := cr
        have hlt := skipElemOne_length hm
        show (c ++ (skipElemsF n r).1, (skipElemsF n r).2) =
          (c ++ (skipElemsF m r).1, (skipElemsF m r).2)
        rw [ih m r (by omega) (by omega)]

/-- The whole `(?:<[^v][^<]*</[^<]*>\s*)*` group: greedily consume iterations
until one fails.  Returns `(consumed text, rest)`. -/
def skipElems (s : List Char) : List Char × List Char := skipElemsF s.length s

/-- The recursion equation of `skipElems`. -/
theorem skipElems_step (s : List Char) :
    skipElems s = match skipElemOne s with
      | none => ([], s)
      | some (c, r) => (c ++ (skipElems r).1, (skipElems r).2) := by
  unfold skipElems
  cases s with
  | nil => rfl
  | cons x xs =>
    show (match skipElemOne (x :: xs) with
      | none => ([], x :: xs)
      | some (c, r) => (c ++ (skipElemsF xs.length r).1, (skipElemsF xs.length r).2)) = _
    cases hm : skipElemOne (x :: xs) with
    | none => rfl
    | some cr =>
      obtain ⟨c, r⟩ := cr
      have hlt := skipElemOne_length hm
      show (c ++ (skipElemsF xs.length r).1, (skipElemsF xs.length r).2) =
        (c ++ (skipElemsF r.length r).1, (skipElemsF r.length r).2)
      rw [skipElemsF_fuel xs.length r.length r (by simp only [List.length_cons] at hlt; omega)
        (le_refl _)]

/-- One attempt of the dependency pattern
`(<dependency>\s*<groupId>G</groupId>\s*<artifactId>A</artifactId>\s*(?:<[^v][^<]*</[^<]*>\s*)*<version>)([^<]+)(</version>)`
at the start of `s`; returns `(group1, group2, rest)`. -/
def matchDepHere (g a s : List Char) : Option (List Char × List Char × List Char) :=
  match dropLit "<dependency>".toList s with
  | none => none
  | some s1 =>
    match dropLit (gidLit g) (s1.dropWhile isWs) with
    | none => none
    | some s2 =>
      match dropLit (aidLit a) (s2.dropWhile isWs) with
      | none => none
      | some s3 =>
        match dropLit vOpen (skipElems (s3.dropWhile isWs)).2 with
        | none => none
        | some s4 =>
          match s4.takeWhile notLt, dropLit vClose (s4.dropWhile notLt) with
          | [], _ => none
          | _, none => none
          | v :: vs, some s5 =>
            some ("<dependency>".toList ++ s1.takeWhile isWs ++ gidLit g ++ s2.takeWhile isWs
                    ++ aidLit a ++ s3.takeWhile isWs
                    ++ (skipElems (s3.dropWhile isWs)).1 ++ vOpen, v :: vs, s5)

/-- One attempt of the property pattern `(<NM>)([^<]+)(</NM>)` at the start of
`s`; returns `(group2, rest)` (group1 and group3 are the constant tags). -/
def matchPropHere (nm s : List Char) : Option (List Char × List Char) :=
  match dropLit (tagOpen nm) s with
  | none => none
  | some s1 =>
    match s1.takeWhile notLt, dropLit (tagClose nm) (s1.dropWhile notLt) with
    | [], _ => none
    | _, none => none
    | v :: vs, some s2 => some (v :: vs, s2)

/-- `pattern.search`: group 2 of the leftmost parent-pattern match. -/
def searchParent (g a : List Char) : List Char → Option (List Char)
  | [] => none
  | c :: cs =>
    match matchParentHere g a (c :: cs) with
    | some r => some r.2.1
    | none => searchParent g a cs

/-- `pattern.search`: group 2 of the leftmost dependency-pattern match. -/
def searchDep (g a : List Char) : List Char → Option (List Char)
  | [] => none
  | c :: cs =>
    match matchDepHere g a (c :: cs) with
    | some r => some r.2.1
    | none => searchDep g a cs

/-- `pattern.search`: group 2 of the leftmost property-pattern match. -/
def searchProp (nm : List Char) : List Char → Option (List Char)
  | [] => none
  | c :: cs =>
    match matchPropHere nm (c :: cs) with
    | some r => some r.1
    | none => searchProp nm cs

theorem dropLit_eq {lit s r : List Char} : dropLit lit s = some r ↔ s = lit ++ r := by
  constructor
  · intro h
    unfold dropLit at h
    split at h
    case isTrue hp =>
      injection h with h
      obtain ⟨t, ht⟩ := (List.isPrefixOf_iff_prefix.mp hp)
      subst h
      rw [← ht, List.drop_left]
    case isFalse => exact absurd h (by simp)
  · intro h
    subst h
    unfold dropLit
    rw [if_pos (List.isPrefixOf_iff_prefix.mpr ⟨r, rfl⟩), List.drop_left]

theorem dropLit_length {lit s r : List Char} (h : dropLit lit s = some r) :
    s.length = lit.length + r.length := by
  rw [dropLit_eq.mp h, List.length_append]

theorem matchParentHere_rest_length {g a s : List Char} {r : List Char × List Char × List Char}
    (h : matchParentHere g a s = some r) : r.2.2.length < s.length := by
  unfold matchParentHere at h
  split at h
  · exact absurd h (by simp)
  case h_2 s1 h1 =>
    split at h
    · exact absurd h (by simp)
    case h_2 s2 h2 =>
      split at h
      · exact absurd h (by simp)
      case h_2 s3 h3 =>
        split at h
        · exact absurd h (by simp)
        case h_2 s4 h4 =>
          split at h
          · exact absurd h (by simp)
          · exact absurd h (by simp)
          case h_3 x l s5 hne h5 =>
            injection h with hh
            subst hh
            have e1 := dropLit_length h1
            have e2 := dropLit_length h2
            have e3 := dropLit_length h3
            have e4 := dropLit_length h4
            have e5 := dropLit_length h5
            have d1 : (s1.dropWhile isWs).length ≤ s1.length := dropWhile_length_le _ _
            have d2 : (s2.dropWhile isWs).length ≤ s2.length := dropWhile_length_le _ _
            have d3 : (s3.dropWhile isWs).length ≤ s3.length := dropWhile_length_le _ _
            have d4 : (s4.dropWhile notLt).length ≤ s4.length := dropWhile_length_le _ _
            have l1 : ("<parent>".toList).length = 8 := rfl
            have l4 : vOpen.length = 9 := rfl
            have l5 : vClose.length = 10 := rfl
            show s5.length < s.length
            omega

theorem skipElems_rest_length (s : List Char) : (skipElems s).2.length ≤ s.length := by
  rw [skipElems_step]
  split
  · exact le_refl _
  case h_2 c r h =>
    exact le_trans (skipElems_rest_length r) (le_of_lt (skipElemOne_length h))
termination_by s.length
decreasing_by exact skipElemOne_length (by assumption)

theorem matchDepHere_rest_length {g a s : List Char} {r : List Char × List Char × List Char}
    (h : matchDepHere g a s = some r) : r.2.2.length < s.length := by
  unfold matchDepHere at h
  split at h
  · exact absurd h (by simp)
  case h_2 s1 h1 =>
    split at h
    · exact absurd h (by simp)
    case h_2 s2 h2 =>
      split at h
      · exact absurd h (by simp)
      case h_2 s3 h3 =>
        split at h
        · exact absurd h (by simp)
        case h_2 s4 h4 =>
          split at h
          · exact absurd h (by simp)
          · exact absurd h (by simp)
          case h_3 x l s5 hne h5 =>
            injection h with hh
            subst hh
            have e1 := dropLit_length h1
            have e2 := dropLit_length h2
            have e3 := dropLit_length h3
            have e4 := dropLit_length h4
            have e5 := dropLit_length h5
            have d1 : (s1.dropWhile isWs).length ≤ s1.length := dropWhile_length_le _ _
            have d2 : (s2.dropWhile isWs).length ≤ s2.length := dropWhile_length_le _ _
            have d3 : (s3.dropWhile isWs).length ≤ s3.length := dropWhile_length_le _ _
            have d4 : (s4.dropWhile notLt).length ≤ s4.length := dropWhile_length_le _ _
            have dsk : ((skipElems (s3.dropWhile isWs)).2).length ≤ (s3.dropWhile isWs).length :=
              skipElems_rest_length _
            have l1 : ("<dependency>".toList).length = 12 := rfl
            have l4 : vOpen.length = 9 := rfl
            have l5 : vClose.length = 10 := rfl
            show s5.length < s.length
            omega

theorem matchPropHere_rest_length {nm s : List Char} {r : List Char × List Char}
    (h : matchPropHere nm s = some r) : r.2.length < s.length := by
  unfold matchPropHere at h
  split at h
  · exact absurd h (by simp)
  case h_2 s1 h1 =>
    split at h
    · exact absurd h (by simp)
    · exact absurd h (by simp)
    case h_3 x l s2 hne h2 =>
      injection h with hh
      subst hh
      have e1 := dropLit_length h1
      have e2 := dropLit_length h2
      have d1 : (s1.dropWhile notLt).length ≤ s1.length := dropWhile_length_le _ _
      have l1 : (tagOpen nm).length = nm.length + 2 := by simp [tagOpen]
      have l2 : (tagClose nm).length = nm.length + 3 := by simp [tagClose]
      show s2.length < s.length
      omega

theorem matchParentHere_nil {g a : List Char} : matchParentHere g a [] = none := by
  unfold matchParentHere
  have : dropLit "<parent>".toList [] = none := by
    unfold dropLit
    rw [if_neg]
    decide
  rw [this]

theorem matchDepHere_nil {g a : List Char} : matchDepHere g a [] = none := by
  unfold matchDepHere
  have : dropLit "<dependency>".toList [] = none := by
    unfold dropLit
    rw [if_neg]
    decide
  rw [this]

theorem matchPropHere_nil {nm : List Char} : matchPropHere nm [] = none := by
  unfold matchPropHere
  have : dropLit (tagOpen nm) [] = none := by
    unfold dropLit
    rw [if_neg]
    simp [tagOpen, List.isPrefixOf]
  rw [this]

/-- Fuel-indexed worker for `subParent` (structural recursion on the fuel so
that the kernel can evaluate it). -/
def subParentF (g a v : List Char) : Nat → List Char → List Char
  | 0, s => s
  | _ + 1, [] => []
  | fuel + 1, c :: cs =>
    match matchParentHere g a (c :: cs) with
    | some r => r.1 ++ v ++ vClose ++ subParentF g a v fuel r.2.2
    | none => c :: subParentF g a v fuel cs

theorem subParentF_fuel (g a v : List Char) : ∀ (f1 f2 : Nat) (s : List Char),
    s.length ≤ f1 → s.length ≤ f2 → subParentF g a v f1 s = subParentF g a v f2 s := by
  intro f1
  induction f1 with
  | zero =>
    intro f2 s hs1 hs2
    have : s = [] := List.length_eq_zero.mp (by omega)
    subst this
    cases f2 with
    | zero => rfl
    | succ m => rfl
  | succ n ih =>
    intro f2 s hs1 hs2
    cases f2 with
    | zero =>
      have : s = [] := List.length_eq_zero.mp (by omega)
      subst this
      rfl
    | succ m =>
      cases s with
      | nil => rfl
      | cons c cs =>
        show (match matchParentHere g a (c :: cs) with
          | some r => r.1 ++ v ++ vClose ++ subParentF g a v n r.2.2
          | none => c :: subParentF g a v n cs) =
          (match matchParentHere g a (c :: cs) with
          | some r => r.1 ++ v ++ vClose ++ subParentF g a v m r.2.2
          | none => c :: subParentF g a v m cs)
        cases hm : matchParentHere g a (c :: cs) with
        | none =>
          show c :: subParentF g a v n cs = c :: subParentF g a v m cs
          rw [ih m cs (by simp at hs1; omega) (by simp at hs2; omega)]
        | some r =>
          have hlt := matchParentHere_rest_length hm
          show r.1 ++ v ++ vClose ++ subParentF g a v n r.2.2 = r.1 ++ v ++ vClose ++ subParentF g a v m r.2.2
          rw [ih m r.2.2 (by simp at hs1 hlt ⊢; omega) (by simp at hs2 hlt ⊢; omega)]

/-- `PARENT_PATTERN.sub(rf"\g<1>{new_version}\3", s)`: replace group 2 of every
(leftmost, non-overlapping) parent-pattern match by `v`. -/
def subParent (g a v s : List Char) : List Char := subParentF g a v s.length s

/-- Fuel-indexed worker for `subDep`. -/
def subDepF (g a v : List Char) : Nat → List Char → List Char
  | 0, s => s
  | _ + 1, [] => []
  | fuel + 1, c :: cs =>
    match matchDepHere g a (c :: cs) with
    | some r => r.1 ++ v ++ vClose ++ subDepF g a v fuel r.2.2
    | none => c :: subDepF g a v fuel cs

theorem subDepF_fuel (g a v : List Char) : ∀ (f1 f2 : Nat) (s : List Char),
    s.length ≤ f1 → s.length ≤ f2 → subDepF g a v f1 s = subDepF g a v f2 s := by
  intro f1
  induction f1 with
  | zero =>
    intro f2 s hs1 hs2
    have : s = [] := List.length_eq_zero.mp (by omega)
    subst this
    cases f2 with
    | zero => rfl
    | succ m => rfl
  | succ n ih =>
    intro f2 s hs1 hs2
    cases f2 with
    | zero =>
      have : s = [] := List.length_eq_zero.mp (by omega)
      subst this
      rfl
    | succ m =>
      cases s with
      | nil => rfl
      | cons c cs =>
        show (match matchDepHere g a (c :: cs) with
          | some r => r.1 ++ v ++ vClose ++ subDepF g a v n r.2.2
          | none => c :: subDepF g a v n cs) =
          (match matchDepHere g a (c :: cs) with
          | some r => r.1 ++ v ++ vClose ++ subDepF g a v m r.2.2
          | none => c :: subDepF g a v m cs)
        cases hm : matchDepHere g a (c :: cs) with
        | none =>
          show c :: subDepF g a v n cs = c :: subDepF g a v m cs
          rw [ih m cs (by simp at hs1; omega) (by simp at hs2; omega)]
        | some r =>
          have hlt := matchDepHere_rest_length hm
          show r.1 ++ v ++ vClose ++ subDepF g a v n r.2.2 = r.1 ++ v ++ vClose ++ subDepF g a v m r.2.2
          rw [ih m r.2.2 (by simp at hs1 hlt ⊢; omega) (by simp at hs2 hlt ⊢; omega)]

/-- `DEPENDENCY_PATTERN.sub(rf"\g<1>{new_version}\3", s)`. -/
def subDep (g a v s : List Char) : List Char := subDepF g a v s.length s

/-- Fuel-indexed worker for `subProp`. -/
def subPropF (nm v : List Char) : Nat → List Char → List Char
  | 0, s => s
  | _ + 1, [] => []
  | fuel + 1, c :: cs =>
    match matchPropHere nm (c :: cs) with
    | some r => tagOpen nm ++ v ++ tagClose nm ++ subPropF nm v fuel r.2
    | none => c :: subPropF nm v fuel cs

theorem subPropF_fuel (nm v : List Char) : ∀ (f1 f2 : Nat) (s : List Char),
    s.length ≤ f1 → s.length ≤ f2 → subPropF nm v f1 s = subPropF nm v f2 s := by
  intro f1
  induction f1 with
  | zero =>
    intro f2 s hs1 hs2
    have : s = [] := List.length_eq_zero.mp (by omega)
    subst this
    cases f2 with
    | zero => rfl
    | succ m => rfl
  | succ n ih =>
    intro f2 s hs1 hs2
    cases f2 with
    | zero =>
      have : s = [] := List.length_eq_zero.mp (by omega)
      subst this
      rfl
    | succ m =>
      cases s with
      | nil => rfl
      | cons c cs =>
        show (match matchPropHere nm (c :: cs) with
          | some r => tagOpen nm ++ v ++ tagClose nm ++ subPropF nm v n r.2
          | none => c :: subPropF nm v n cs) =
          (match matchPropHere nm (c :: cs) with
          | some r => tagOpen nm ++ v ++ tagClose nm ++ subPropF nm v m r.2
          | none => c :: subPropF nm v m cs)
        cases hm : matchPropHere nm (c :: cs) with
        | none =>
          show c :: subPropF nm v n cs = c :: subPropF nm v m cs
          rw [ih m cs (by simp at hs1; omega) (by simp at hs2; omega)]
        | some r =>
          have hlt := matchPropHere_rest_length hm
          show tagOpen nm ++ v ++ tagClose nm ++ subPropF nm v n r.2 = tagOpen nm ++ v ++ tagClose nm ++ subPropF nm v m r.2
          rw [ih m r.2 (by simp at hs1 hlt ⊢; omega) (by simp at hs2 hlt ⊢; omega)]

/-- `PROPERTY_DEF_PATTERN.sub(rf"\g<1>{new_version}\3", s)` for property `nm`. -/
def subProp (nm v s : List Char) : List Char := subPropF nm v s.length s

/-- `PROPERTY_REF_PATTERN.match`, i.e. `^\$\{(.+)\}$` (no DOTALL: `.` excludes
the newline), applied to the already-stripped version text: accepts
`$`, `{`, a nonempty newline-free name, up to the final `}` (greedy `.+`). -/
def propRefName (v : List Char) : Option (List Char) :=
  match v with
  | '$' :: '\x7b' :: rest =>
    if rest.getLast? == some '\x7d' then
      if rest.dropLast.isEmpty then none
      else if rest.dropLast.contains '\n' then none
      else some rest.dropLast
    else none
  | _ => none

/-- The `print` calls of the rewrite functions that the claims talk about. -/
inductive LogEvent
  /-- `print(f"Skipping SNAPSHOT version: {old_version}")` -/
  | skipSnapshotVersion (old : List Char)
  /-- `print(f"Skipping SNAPSHOT property value: {old_version}")` -/
  | skipSnapshotProperty (old : List Char)
  /-- `print(f"::warning::Property {prop_name} not found in any POM file")` -/
  | warnPropertyNotFound (nm : List Char)
deriving DecidableEq

/-- Python's substring test `needle in haystack`. -/
def hasSub (needle : List Char) : List Char → Bool
  | [] => needle.isEmpty
  | c :: cs => needle.isPrefixOf (c :: cs) || hasSub needle cs

def snapshotMark : List Char := "SNAPSHOT".toList

/-- `update_parent_version(pom_content, group_id, artifact_id, new_version)`.
Returns the Python pair `(updated_content, old_version)` plus the log. -/
def update_parent_version (pom g a newV : List Char) :
    List Char × Option (List Char) × List LogEvent :=
  match searchParent g a pom with
  | none => (pom, none, [])
  | some ver =>
    if strip ver == newV then (pom, none, [])
    else if hasSub snapshotMark (strip ver) then
      (pom, none, [LogEvent.skipSnapshotVersion (strip ver)])
    else (subParent g a newV pom, some (strip ver), [])

/-- The `for path, content in all_pom_contents.items()` loop of
`_update_property_version` (a `dict` iterates in insertion order, modelled by
an association list).  Returns `(pom_content, old_version, updated_poms, log)`. -/
def findPropertyInOthers (pom nm newV : List Char) :
    List (List Char × List Char) →
      List Char × Option (List Char) × List (List Char × List Char) × List LogEvent
  | [] => (pom, none, [], [LogEvent.warnPropertyNotFound nm])
  | (path, content) :: rest =>
    match searchProp nm content with
    | none => findPropertyInOthers pom nm newV rest
    | some ver =>
      if strip ver == newV then (pom, none, [], [])
      else if hasSub snapshotMark (strip ver) then
        (pom, none, [], [LogEvent.skipSnapshotProperty (strip ver)])
      else (pom, some (strip ver), [(path, subProp nm newV content)], [])

/-- `_update_property_version(pom_content, prop_name, new_version, all_pom_contents)`.
Returns the Python triple `(updated_pom_content, old_version, updated_poms)`
plus the log.  (`all_pom_contents=None` and an empty dict both reach the final
warning; both are modelled by the empty list.) -/
def update_property_version (pom nm newV : List Char)
    (allPoms : List (List Char × List Char)) :
    List Char × Option (List Char) × List (List Char × List Char) × List LogEvent :=
  match searchProp nm pom with
  | some ver =>
    if strip ver == newV then (pom, none, [], [])
    else if hasSub snapshotMark (strip ver) then
      (pom, none, [], [LogEvent.skipSnapshotProperty (strip ver)])
    else (subProp nm newV pom, some (strip ver), [], [])
  | none => findPropertyInOthers pom nm newV allPoms

/-- `update_dependency_version(pom_content, group_id, artifact_id, new_version,
all_pom_contents)`.  Returns the Python triple `(updated_content, old_version,
updated_poms)` plus the log. -/
def update_dependency_version (pom g a newV : List Char)
    (allPoms : List (List Char × List Char)) :
    List Char × Option (List Char) × List (List Char × List Char) × List LogEvent :=
  match searchDep g a pom with
  | none => (pom, none, [], [])
  | some ver =>
    match propRefName (strip ver) with
    | some nm => update_property_version pom nm newV allPoms
    | none =>
      if strip ver == newV then (pom, none, [], [])
      else if hasSub snapshotMark (strip ver) then
        (pom, none, [], [LogEvent.skipSnapshotVersion (strip ver)])
      else (subDep g a newV pom, some (strip ver), [], [])

/-! ### Basic facts about the scanners -/

theorem dropLit_append (lit r : List Char) : dropLit lit (lit ++ r) = some r :=
  dropLit_eq.mpr rfl

theorem takeWhile_app {p : Char → Bool} {w r : List Char}
    (hw : ∀ c ∈ w, p c = true) (hr : ∀ x, r.head? = some x → p x = false) :
    (w ++ r).takeWhile p = w := by
  induction w with
  | nil =>
    cases r with
    | nil => rfl
    | cons x xs => simp [List.takeWhile_cons, hr x rfl]
  | cons b bs ih =>
    have hb : p b = true := hw b (List.mem_cons_self _ _)
    have ih' := ih (fun c hc => hw c (List.mem_cons_of_mem _ hc))
    simp [List.takeWhile_cons, hb, ih']

theorem dropWhile_app {p : Char → Bool} {w r : List Char}
    (hw : ∀ c ∈ w, p c = true) (hr : ∀ x, r.head? = some x → p x = false) :
    (w ++ r).dropWhile p = r := by
  induction w with
  | nil =>
    cases r with
    | nil => rfl
    | cons x xs => simp [List.dropWhile_cons, hr x rfl]
  | cons b bs ih =>
    have hb : p b = true := hw b (List.mem_cons_self _ _)
    have ih' := ih (fun c hc => hw c (List.mem_cons_of_mem _ hc))
    simp [List.dropWhile_cons, hb, ih']

theorem head_stop {Y : List Char} (hY : Y.head? = some '<') {p : Char → Bool}
    (hp : p '<' = false) : ∀ x, Y.head? = some x → p x = false := by
  intro x hx
  rw [hY] at hx
  injection hx with hx
  rw [← hx]
  exact hp

/-- A whitespace run (the text matched by one of the `\s*`). -/
def WsRun (w : List Char) : Prop := ∀ c ∈ w, isWs c = true

/-- A `<`-free text (the text matched by `[^<]+` or `[^<]*`). -/
def LtFree (l : List Char) : Prop := ∀ c ∈ l, notLt c = true

instance (w : List Char) : Decidable (WsRun w) :=
  List.decidableBAll (fun c => isWs c = true) w

instance (l : List Char) : Decidable (LtFree l) :=
  List.decidableBAll (fun c => notLt c = true) l

theorem gid_head (g X : List Char) : (gidLit g ++ X).head? = some '<' := rfl
theorem aid_head (a X : List Char) : (aidLit a ++ X).head? = some '<' := rfl
theorem vOpen_head (X : List Char) : (vOpen ++ X).head? = some '<' := rfl
theorem vClose_head (X : List Char) : (vClose ++ X).head? = some '<' := rfl
theorem tagClose_head (nm X : List Char) : (tagClose nm ++ X).head? = some '<' := rfl

/-- Group 1 of the parent pattern. -/
def parentG1 (g a w1 w2 w3 : List Char) : List Char :=
  "<parent>".toList ++ w1 ++ gidLit g ++ w2 ++ aidLit a ++ w3 ++ vOpen

/-- The full text matched by the parent pattern, followed by `tail`. -/
def parentShape (g a w1 w2 w3 ver tail : List Char) : List Char :=
  "<parent>".toList ++ (w1 ++ (gidLit g ++ (w2 ++ (aidLit a ++ (w3 ++ (vOpen ++ (ver ++ (vClose ++ tail))))))))

theorem matchParentHere_iff {g a s g1 ver rest : List Char} :
    matchParentHere g a s = some (g1, ver, rest) ↔
      ∃ w1 w2 w3, WsRun w1 ∧ WsRun w2 ∧ WsRun w3 ∧ ver ≠ [] ∧ LtFree ver ∧
        g1 = parentG1 g a w1 w2 w3 ∧ s = parentShape g a w1 w2 w3 ver rest := by
  constructor
  · intro h
    unfold matchParentHere at h
    split at h
    · exact absurd h (by simp)
    case h_2 s1 h1 =>
      split at h
      · exact absurd h (by simp)
      case h_2 s2 h2 =>
        split at h
        · exact absurd h (by simp)
        case h_2 s3 h3 =>
          split at h
          · exact absurd h (by simp)
          case h_2 s4 h4 =>
            split at h
            · exact absurd h (by simp)
            · exact absurd h (by simp)
            case h_3 v vs s5 hvv h5 =>
              simp only [Option.some.injEq, Prod.mk.injEq] at h
              obtain ⟨hg1, hver, hrest⟩ := h
              subst hrest
              refine ⟨s1.takeWhile isWs, s2.takeWhile isWs, s3.takeWhile isWs,
                fun c hc => List.mem_takeWhile_imp hc,
                fun c hc => List.mem_takeWhile_imp hc,
                fun c hc => List.mem_takeWhile_imp hc, ?_, ?_, ?_, ?_⟩
              · rw [← hver]; simp
              · rw [← hver, ← hvv]; exact fun c hc => List.mem_takeWhile_imp hc
              · rw [← hg1, parentG1]
              · have e1 := dropLit_eq.mp h1
                have e2 := dropLit_eq.mp h2
                have e3 := dropLit_eq.mp h3
                have e4 := dropLit_eq.mp h4
                have e5 := dropLit_eq.mp h5
                have t1 := List.takeWhile_append_dropWhile isWs s1
                have t2 := List.takeWhile_append_dropWhile isWs s2
                have t3 := List.takeWhile_append_dropWhile isWs s3
                have t4 := List.takeWhile_append_dropWhile notLt s4
                have hv2 : s4.takeWhile notLt = ver := by rw [hvv, hver]
                calc s = "<parent>".toList ++ s1 := e1
                  _ = "<parent>".toList ++ (s1.takeWhile isWs ++ s1.dropWhile isWs) := by
                        rw [t1]
                  _ = "<parent>".toList ++ (s1.takeWhile isWs ++ (gidLit g ++ s2)) := by
                        rw [e2]
                  _ = "<parent>".toList ++ (s1.takeWhile isWs ++ (gidLit g
                        ++ (s2.takeWhile isWs ++ s2.dropWhile isWs))) := by rw [t2]
                  _ = "<parent>".toList ++ (s1.takeWhile isWs ++ (gidLit g
                        ++ (s2.takeWhile isWs ++ (aidLit a ++ s3)))) := by rw [e3]
                  _ = "<parent>".toList ++ (s1.takeWhile isWs ++ (gidLit g
                        ++ (s2.takeWhile isWs ++ (aidLit a
                        ++ (s3.takeWhile isWs ++ s3.dropWhile isWs))))) := by rw [t3]
                  _ = "<parent>".toList ++ (s1.takeWhile isWs ++ (gidLit g
                        ++ (s2.takeWhile isWs ++ (aidLit a
                        ++ (s3.takeWhile isWs ++ (vOpen ++ s4)))))) := by rw [e4]
                  _ = "<parent>".toList ++ (s1.takeWhile isWs ++ (gidLit g
                        ++ (s2.takeWhile isWs ++ (aidLit a
                        ++ (s3.takeWhile isWs ++ (vOpen
                        ++ (ver ++ s4.dropWhile notLt))))))) := by rw [← hv2, t4]
                  _ = parentShape g a (s1.takeWhile isWs) (s2.takeWhile isWs)
                        (s3.takeWhile isWs) ver s5 := by rw [e5, parentShape]
  · rintro ⟨w1, w2, w3, hw1, hw2, hw3, hne, hltf, hg1, hs⟩
    subst hg1 hs
    obtain ⟨v, vs, hver⟩ : ∃ v vs, ver = v :: vs := by
      cases ver with
      | nil => exact absurd rfl hne
      | cons v vs => exact ⟨v, vs, rfl⟩
    unfold matchParentHere
    rw [parentShape]
    simp only [dropLit_append,
      dropWhile_app hw1 (head_stop (gid_head g _) rfl),
      takeWhile_app hw1 (head_stop (gid_head g _) rfl),
      dropWhile_app hw2 (head_stop (aid_head a _) rfl),
      takeWhile_app hw2 (head_stop (aid_head a _) rfl),
      dropWhile_app hw3 (head_stop (vOpen_head _) rfl),
      takeWhile_app hw3 (head_stop (vOpen_head _) rfl),
      dropWhile_app hltf (head_stop (vClose_head _) rfl),
      takeWhile_app hltf (head_stop (vClose_head _) rfl)]
    rw [hver]
    simp [parentG1, List.append_assoc]

/-- The full text matched by the property pattern, followed by `tail`. -/
def propShape (nm ver tail : List Char) : List Char :=
  tagOpen nm ++ (ver ++ (tagClose nm ++ tail))

theorem matchPropHere_iff {nm s ver rest : List Char} :
    matchPropHere nm s = some (ver, rest) ↔
      ver ≠ [] ∧ LtFree ver ∧ s = propShape nm ver rest := by
  constructor
  · intro h
    unfold matchPropHere at h
    split at h
    · exact absurd h (by simp)
    case h_2 s1 h1 =>
      split at h
      · exact absurd h (by simp)
      · exact absurd h (by simp)
      case h_3 v vs s2 hvv h2 =>
        simp only [Option.some.injEq, Prod.mk.injEq] at h
        obtain ⟨hver, hrest⟩ := h
        subst hrest
        have e1 := dropLit_eq.mp h1
        have e2 := dropLit_eq.mp h2
        have t1 := List.takeWhile_append_dropWhile notLt s1
        have hv2 : s1.takeWhile notLt = ver := by rw [hvv, hver]
        refine ⟨?_, ?_, ?_⟩
        · rw [← hver]
          simp
        · rw [← hver, ← hvv]
          exact fun c hc => List.mem_takeWhile_imp hc
        · calc s = tagOpen nm ++ s1 := e1
            _ = tagOpen nm ++ (ver ++ s1.dropWhile notLt) := by rw [← hv2, t1]
            _ = propShape nm ver s2 := by rw [e2, propShape]
  · rintro ⟨hne, hltf, hs⟩
    subst hs
    obtain ⟨v, vs, hver⟩ : ∃ v vs, ver = v :: vs := by
      cases ver with
      | nil => exact absurd rfl hne
      | cons v vs => exact ⟨v, vs, rfl⟩
    unfold matchPropHere
    rw [propShape]
    simp only [dropLit_append,
      dropWhile_app hltf (head_stop (tagClose_head nm _) rfl),
      takeWhile_app hltf (head_stop (tagClose_head nm _) rfl)]
    rw [hver]

/-- The texts consumable by the dependency pattern's optional-element loop. -/
inductive SkipTxtOk : List Char → Prop
  | nil : SkipTxtOk []
  | elem (c : Char) (run1 run2 rest : List Char) :
      (c == 'v') = false → LtFree run1 → LtFree run2 →
      (stripEnd run2).getLast? = some '>' → SkipTxtOk rest →
      SkipTxtOk ('<' :: c :: run1 ++ '<' :: '/' :: run2 ++ rest)

/-- Every character that can start `l` is `<`. -/
def HeadLt (l : List Char) : Prop := ∀ x, l.head? = some x → x = '<'

theorem skipTxtOk_headLt {t : List Char} (h : SkipTxtOk t) (X : List Char)
    (hX : HeadLt X) : HeadLt (t ++ X) := by
  cases h with
  | nil => simpa using hX
  | elem c run1 run2 rest hc h1 h2 hg hr =>
    intro x hx
    have e : (('<' :: c :: run1 ++ '<' :: '/' :: run2 ++ rest) ++ X).head? = some '<' := rfl
    rw [e] at hx
    injection hx with hx
    exact hx.symm

theorem skipElemOne_elem {c : Char} {run1 run2 tail : List Char}
    (hc : (c == 'v') = false) (h1 : LtFree run1) (h2 : LtFree run2)
    (hg : (stripEnd run2).getLast? = some '>') (ht : HeadLt tail) :
    skipElemOne ('<' :: c :: run1 ++ '<' :: '/' :: run2 ++ tail) =
      some ('<' :: c :: run1 ++ '<' :: '/' :: run2, tail) := by
  have e : ('<' :: c :: run1 ++ '<' :: '/' :: run2 ++ tail) =
      '<' :: c :: (run1 ++ ('<' :: '/' :: (run2 ++ tail))) := by simp
  have hstop : ∀ x, (('<' :: '/' :: (run2 ++ tail)) : List Char).head? = some x →
      notLt x = false := by
    intro x hx
    injection hx with hx
    rw [← hx]
    rfl
  have hstop2 : ∀ x, (tail : List Char).head? = some x → notLt x = false := by
    intro x hx
    rw [ht x hx]
    rfl
  rw [e]
  unfold skipElemOne
  simp only [hc, Bool.false_eq_true, if_false, dropWhile_app h1 hstop,
    takeWhile_app h1 hstop, takeWhile_app h2 hstop2, dropWhile_app h2 hstop2, hg]
  simp

theorem skipElemOne_vOpen (X : List Char) : skipElemOne (vOpen ++ X) = none := rfl

theorem skipElems_skip {t X : List Char} (h : SkipTxtOk t) :
    skipElems (t ++ (vOpen ++ X)) = (t, vOpen ++ X) := by
  induction h with
  | nil =>
    rw [List.nil_append, skipElems_step, skipElemOne_vOpen]
  | elem c run1 run2 rest hc h1 h2 hg hr ih =>
    have ht : HeadLt (rest ++ (vOpen ++ X)) := by
      refine skipTxtOk_headLt hr _ ?_
      intro x hx
      have e : ((vOpen ++ X) : List Char).head? = some '<' := rfl
      rw [e] at hx
      injection hx with hx
      exact hx.symm
    have hone : skipElemOne (('<' :: c :: run1 ++ '<' :: '/' :: run2 ++ rest) ++ (vOpen ++ X)) =
        some ('<' :: c :: run1 ++ '<' :: '/' :: run2, rest ++ (vOpen ++ X)) := by
      have e : ('<' :: c :: run1 ++ '<' :: '/' :: run2 ++ rest) ++ (vOpen ++ X) =
          '<' :: c :: run1 ++ '<' :: '/' :: run2 ++ (rest ++ (vOpen ++ X)) := by simp
      rw [e, skipElemOne_elem hc h1 h2 hg ht]
    rw [skipElems_step, hone]
    simp [ih]

theorem skipElemOne_sound {s c r : List Char} (h : skipElemOne s = some (c, r)) :
    s = c ++ r ∧ ∃ ch run1 run2, (ch == 'v') = false ∧ LtFree run1 ∧ LtFree run2 ∧
      (stripEnd run2).getLast? = some '>' ∧ c = '<' :: ch :: run1 ++ '<' :: '/' :: run2 := by
  unfold skipElemOne at h
  split at h
  case h_2 => exact absurd h (by simp)
  case h_1 s ch rest =>
    split at h
    · exact absurd h (by simp)
    case isFalse hch =>
      split at h
      case h_2 => exact absurd h (by simp)
      case h_1 r2 heq =>
        split at h
        case isFalse => exact absurd h (by simp)
        case isTrue hg =>
          simp only [Option.some.injEq, Prod.mk.injEq] at h
          obtain ⟨hcm, hrm⟩ := h
          constructor
          · rw [← hcm, ← hrm]
            have t1 := List.takeWhile_append_dropWhile notLt rest
            have t2 := List.takeWhile_append_dropWhile notLt r2
            calc ('<' :: ch :: rest : List Char)
                = '<' :: ch :: (rest.takeWhile notLt ++ rest.dropWhile notLt) := by rw [t1]
              _ = '<' :: ch :: (rest.takeWhile notLt ++ ('<' :: '/' ::
                    (r2.takeWhile notLt ++ r2.dropWhile notLt))) := by rw [heq, t2]
              _ = ('<' :: ch :: rest.takeWhile notLt ++ '<' :: '/' :: r2.takeWhile notLt)
                    ++ r2.dropWhile notLt := by simp
          · refine ⟨ch, rest.takeWhile notLt, r2.takeWhile notLt, by simpa using hch,
              fun x hx => List.mem_takeWhile_imp hx,
              fun x hx => List.mem_takeWhile_imp hx, by simpa using hg, ?_⟩
            rw [← hcm]

theorem skipElems_sound (s : List Char) :
    SkipTxtOk (skipElems s).1 ∧ s = (skipElems s).1 ++ (skipElems s).2 := by
  rw [skipElems_step]
  split
  · exact ⟨SkipTxtOk.nil, rfl⟩
  case h_2 c r h =>
    obtain ⟨hs, ch, run1, run2, hch, h1, h2, hg, hc⟩ := skipElemOne_sound h
    have ih := skipElems_sound r
    constructor
    · show SkipTxtOk (c ++ (skipElems r).1)
      rw [hc]
      have := SkipTxtOk.elem ch run1 run2 (skipElems r).1 hch h1 h2 hg ih.1
      simpa using this
    · show s = (c ++ (skipElems r).1) ++ (skipElems r).2
      conv_lhs => rw [hs, ih.2]
      simp
termination_by s.length
decreasing_by exact skipElemOne_length (by assumption)

theorem skipTxt_vOpen_head {t : List Char} (h : SkipTxtOk t) (X : List Char) :
    (t ++ (vOpen ++ X)).head? = some '<' := by
  cases h with
  | nil => rfl
  | elem c run1 run2 rest hc h1 h2 hg hr => rfl

/-- Group 1 of the dependency pattern. -/
def depG1 (g a w1 w2 w3 sk : List Char) : List Char :=
  "<dependency>".toList ++ w1 ++ gidLit g ++ w2 ++ aidLit a ++ w3 ++ sk ++ vOpen

/-- The full text matched by the dependency pattern, followed by `tail`. -/
def depShape (g a w1 w2 w3 sk ver tail : List Char) : List Char :=
  "<dependency>".toList ++ (w1 ++ (gidLit g ++ (w2 ++ (aidLit a ++ (w3 ++ (sk
    ++ (vOpen ++ (ver ++ (vClose ++ tail)))))))))

theorem matchDepHere_iff {g a s g1 ver rest : List Char} :
    matchDepHere g a s = some (g1, ver, rest) ↔
      ∃ w1 w2 w3 sk, WsRun w1 ∧ WsRun w2 ∧ WsRun w3 ∧ SkipTxtOk sk ∧
        ver ≠ [] ∧ LtFree ver ∧ g1 = depG1 g a w1 w2 w3 sk ∧
        s = depShape g a w1 w2 w3 sk ver rest := by
  constructor
  · intro h
    unfold matchDepHere at h
    split at h
    · exact absurd h (by simp)
    case h_2 s1 h1 =>
      split at h
      · exact absurd h (by simp)
      case h_2 s2 h2 =>
        split at h
        · exact absurd h (by simp)
        case h_2 s3 h3 =>
          split at h
          · exact absurd h (by simp)
          case h_2 s4 h4 =>
            split at h
            · exact absurd h (by simp)
            · exact absurd h (by simp)
            case h_3 v vs s5 hvv h5 =>
              simp only [Option.some.injEq, Prod.mk.injEq] at h
              obtain ⟨hg1, hver, hrest⟩ := h
              subst hrest
              obtain ⟨hskOk, hskEq⟩ := skipElems_sound (s3.dropWhile isWs)
              refine ⟨s1.takeWhile isWs, s2.takeWhile isWs, s3.takeWhile isWs,
                (skipElems (s3.dropWhile isWs)).1,
                fun c hc => List.mem_takeWhile_imp hc,
                fun c hc => List.mem_takeWhile_imp hc,
                fun c hc => List.mem_takeWhile_imp hc, hskOk, ?_, ?_, ?_, ?_⟩
              · rw [← hver]; simp
              · rw [← hver, ← hvv]; exact fun c hc => List.mem_takeWhile_imp hc
              · rw [← hg1, depG1]
              · have e1 := dropLit_eq.mp h1
                have e2 := dropLit_eq.mp h2
                have e3 := dropLit_eq.mp h3
                have e4 := dropLit_eq.mp h4
                have e5 := dropLit_eq.mp h5
                have t1 := List.takeWhile_append_dropWhile isWs s1
                have t2 := List.takeWhile_append_dropWhile isWs s2
                have t3 := List.takeWhile_append_dropWhile isWs s3
                have t4 := List.takeWhile_append_dropWhile notLt s4
                have hv2 : s4.takeWhile notLt = ver := by rw [hvv, hver]
                calc s = "<dependency>".toList ++ s1 := e1
                  _ = "<dependency>".toList ++ (s1.takeWhile isWs ++ s1.dropWhile isWs) := by
                        rw [t1]
                  _ = "<dependency>".toList ++ (s1.takeWhile isWs ++ (gidLit g ++ s2)) := by
                        rw [e2]
                  _ = "<dependency>".toList ++ (s1.takeWhile isWs ++ (gidLit g
                        ++ (s2.takeWhile isWs ++ s2.dropWhile isWs))) := by rw [t2]
                  _ = "<dependency>".toList ++ (s1.takeWhile isWs ++ (gidLit g
                        ++ (s2.takeWhile isWs ++ (aidLit a ++ s3)))) := by rw [e3]
                  _ = "<dependency>".toList ++ (s1.takeWhile isWs ++ (gidLit g
                        ++ (s2.takeWhile isWs ++ (aidLit a
                        ++ (s3.takeWhile isWs ++ s3.dropWhile isWs))))) := by rw [t3]
                  _ = "<dependency>".toList ++ (s1.takeWhile isWs ++ (gidLit g
                        ++ (s2.takeWhile isWs ++ (aidLit a
                        ++ (s3.takeWhile isWs ++ ((skipElems (s3.dropWhile isWs)).1
                        ++ (skipElems (s3.dropWhile isWs)).2)))))) := by
                        conv_lhs => rw [hskEq]
                  _ = "<dependency>".toList ++ (s1.takeWhile isWs ++ (gidLit g
                        ++ (s2.takeWhile isWs ++ (aidLit a
                        ++ (s3.takeWhile isWs ++ ((skipElems (s3.dropWhile isWs)).1
                        ++ (vOpen ++ s4))))))) := by rw [e4]
                  _ = "<dependency>".toList ++ (s1.takeWhile isWs ++ (gidLit g
                        ++ (s2.takeWhile isWs ++ (aidLit a
                        ++ (s3.takeWhile isWs ++ ((skipElems (s3.dropWhile isWs)).1
                        ++ (vOpen ++ (ver ++ s4.dropWhile notLt)))))))) := by
                        rw [← hv2, t4]
                  _ = depShape g a (s1.takeWhile isWs) (s2.takeWhile isWs)
                        (s3.takeWhile isWs) ((skipElems (s3.dropWhile isWs)).1) ver s5 := by
                        rw [e5, depShape]
  · rintro ⟨w1, w2, w3, sk, hw1, hw2, hw3, hsk, hne, hltf, hg1, hs⟩
    subst hg1 hs
    obtain ⟨v, vs, hver⟩ : ∃ v vs, ver = v :: vs := by
      cases ver with
      | nil => exact absurd rfl hne
      | cons v vs => exact ⟨v, vs, rfl⟩
    unfold matchDepHere
    rw [depShape]
    simp only [dropLit_append,
      dropWhile_app hw1 (head_stop (gid_head g _) rfl),
      takeWhile_app hw1 (head_stop (gid_head g _) rfl),
      dropWhile_app hw2 (head_stop (aid_head a _) rfl),
      takeWhile_app hw2 (head_stop (aid_head a _) rfl),
      dropWhile_app hw3 (head_stop (skipTxt_vOpen_head hsk _) rfl),
      takeWhile_app hw3 (head_stop (skipTxt_vOpen_head hsk _) rfl),
      skipElems_skip hsk,
      dropWhile_app hltf (head_stop (vClose_head _) rfl),
      takeWhile_app hltf (head_stop (vClose_head _) rfl)]
    rw [hver]
    simp [depG1, List.append_assoc]

/-! ### Search and substitution equations -/

theorem searchParent_of_matchHere {g a s : List Char} {r : List Char × List Char × List Char}
    (hm : matchParentHere g a s = some r) : searchParent g a s = some r.2.1 := by
  cases s with
  | nil => exact absurd hm (by simp [matchParentHere_nil])
  | cons c cs =>
    unfold searchParent
    rw [hm]

theorem searchDep_of_matchHere {g a s : List Char} {r : List Char × List Char × List Char}
    (hm : matchDepHere g a s = some r) : searchDep g a s = some r.2.1 := by
  cases s with
  | nil => exact absurd hm (by simp [matchDepHere_nil])
  | cons c cs =>
    unfold searchDep
    rw [hm]

theorem searchProp_of_matchHere {nm s : List Char} {r : List Char × List Char}
    (hm : matchPropHere nm s = some r) : searchProp nm s = some r.1 := by
  cases s with
  | nil => exact absurd hm (by simp [matchPropHere_nil])
  | cons c cs =>
    unfold searchProp
    rw [hm]

theorem subParent_eq_match {g a v s : List Char} {r : List Char × List Char × List Char}
    (hm : matchParentHere g a s = some r) :
    subParent g a v s = r.1 ++ v ++ vClose ++ subParent g a v r.2.2 := by
  cases s with
  | nil => exact absurd hm (by simp [matchParentHere_nil])
  | cons c cs =>
    have hlt := matchParentHere_rest_length hm
    show (match matchParentHere g a (c :: cs) with
      | some r' => r'.1 ++ v ++ vClose ++ subParentF g a v cs.length r'.2.2
      | none => c :: subParentF g a v cs.length cs) = _
    rw [hm]
    show r.1 ++ v ++ vClose ++ subParentF g a v cs.length r.2.2 =
      r.1 ++ v ++ vClose ++ subParent g a v r.2.2
    rw [subParentF_fuel g a v cs.length r.2.2.length r.2.2
      (by simp only [List.length_cons] at hlt; omega) (le_refl _)]
    rfl

theorem subParent_eq_nomatch {g a v : List Char} {c : Char} {cs : List Char}
    (hm : matchParentHere g a (c :: cs) = none) :
    subParent g a v (c :: cs) = c :: subParent g a v cs := by
  show (match matchParentHere g a (c :: cs) with
    | some r' => r'.1 ++ v ++ vClose ++ subParentF g a v cs.length r'.2.2
    | none => c :: subParentF g a v cs.length cs) = _
  rw [hm]
  show c :: subParentF g a v cs.length cs = c :: subParent g a v cs
  rfl

theorem subDep_eq_match {g a v s : List Char} {r : List Char × List Char × List Char}
    (hm : matchDepHere g a s = some r) :
    subDep g a v s = r.1 ++ v ++ vClose ++ subDep g a v r.2.2 := by
  cases s with
  | nil => exact absurd hm (by simp [matchDepHere_nil])
  | cons c cs =>
    have hlt := matchDepHere_rest_length hm
    show (match matchDepHere g a (c :: cs) with
      | some r' => r'.1 ++ v ++ vClose ++ subDepF g a v cs.length r'.2.2
      | none => c :: subDepF g a v cs.length cs) = _
    rw [hm]
    show r.1 ++ v ++ vClose ++ subDepF g a v cs.length r.2.2 =
      r.1 ++ v ++ vClose ++ subDep g a v r.2.2
    rw [subDepF_fuel g a v cs.length r.2.2.length r.2.2
      (by simp only [List.length_cons] at hlt; omega) (le_refl _)]
    rfl

theorem subDep_eq_nomatch {g a v : List Char} {c : Char} {cs : List Char}
    (hm : matchDepHere g a (c :: cs) = none) :
    subDep g a v (c :: cs) = c :: subDep g a v cs := by
  show (match matchDepHere g a (c :: cs) with
    | some r' => r'.1 ++ v ++ vClose ++ subDepF g a v cs.length r'.2.2
    | none => c :: subDepF g a v cs.length cs) = _
  rw [hm]
  show c :: subDepF g a v cs.length cs = c :: subDep g a v cs
  rfl

theorem subProp_eq_match {nm v s : List Char} {r : List Char × List Char}
    (hm : matchPropHere nm s = some r) :
    subProp nm v s = tagOpen nm ++ v ++ tagClose nm ++ subProp nm v r.2 := by
  cases s with
  | nil => exact absurd hm (by simp [matchPropHere_nil])
  | cons c cs =>
    have hlt := matchPropHere_rest_length hm
    show (match matchPropHere nm (c :: cs) with
      | some r' => tagOpen nm ++ v ++ tagClose nm ++ subPropF nm v cs.length r'.2
      | none => c :: subPropF nm v cs.length cs) = _
    rw [hm]
    show tagOpen nm ++ v ++ tagClose nm ++ subPropF nm v cs.length r.2 =
      tagOpen nm ++ v ++ tagClose nm ++ subProp nm v r.2
    rw [subPropF_fuel nm v cs.length r.2.length r.2
      (by simp only [List.length_cons] at hlt; omega) (le_refl _)]
    rfl

theorem subProp_eq_nomatch {nm v : List Char} {c : Char} {cs : List Char}
    (hm : matchPropHere nm (c :: cs) = none) :
    subProp nm v (c :: cs) = c :: subProp nm v cs := by
  show (match matchPropHere nm (c :: cs) with
    | some r' => tagOpen nm ++ v ++ tagClose nm ++ subPropF nm v cs.length r'.2
    | none => c :: subPropF nm v cs.length cs) = _
  rw [hm]
  show c :: subPropF nm v cs.length cs = c :: subProp nm v cs
  rfl

/-! ### The frame relation: two documents that differ only in the text
content of whole `opn … cls` elements, the new text being `v` everywhere -/

/-- `SwapRel opn cls v s t` holds when `t` is obtained from `s` by replacing
the text content of some complete `opn…cls` elements by `v` (each replaced
text being the nonempty `<`-free content the corresponding pattern matches),
and leaving every other character unchanged. -/
inductive SwapRel (opn cls v : List Char) : List Char → List Char → Prop
  | nil : SwapRel opn cls v [] []
  | keep (c : Char) {s t : List Char} : SwapRel opn cls v s t →
      SwapRel opn cls v (c :: s) (c :: t)
  | swap (old : List Char) {s t : List Char} : old ≠ [] → LtFree old →
      SwapRel opn cls v s t →
      SwapRel opn cls v (opn ++ (old ++ (cls ++ s))) (opn ++ (v ++ (cls ++ t)))

theorem SwapRel.refl (opn cls v : List Char) : ∀ s, SwapRel opn cls v s s
  | [] => SwapRel.nil
  | c :: cs => SwapRel.keep c (SwapRel.refl opn cls v cs)

theorem SwapRel.append_left {opn cls v s t : List Char} (l : List Char)
    (h : SwapRel opn cls v s t) : SwapRel opn cls v (l ++ s) (l ++ t) := by
  induction l with
  | nil => exact h
  | cons c cs ih => exact SwapRel.keep c ih

theorem subParent_swapRel (g a v : List Char) :
    ∀ s : List Char, SwapRel vOpen vClose v s (subParent g a v s)
  | [] => SwapRel.nil
  | c :: cs => by
    cases hm : matchParentHere g a (c :: cs) with
    | some r =>
      rw [subParent_eq_match hm]
      obtain ⟨g1, ver, rest⟩ := r
      have hlt : rest.length < (c :: cs).length := matchParentHere_rest_length hm
      obtain ⟨w1, w2, w3, hw1, hw2, hw3, hne, hltf, hg1, hshape⟩ := matchParentHere_iff.mp hm
      have ih := subParent_swapRel g a v rest
      rw [hshape, hg1]
      have eL : parentShape g a w1 w2 w3 ver rest =
          ("<parent>".toList ++ w1 ++ gidLit g ++ w2 ++ aidLit a ++ w3)
            ++ (vOpen ++ (ver ++ (vClose ++ rest))) := by
        simp [parentShape, List.append_assoc]
      have eR : parentG1 g a w1 w2 w3 ++ v ++ vClose ++ subParent g a v rest =
          ("<parent>".toList ++ w1 ++ gidLit g ++ w2 ++ aidLit a ++ w3)
            ++ (vOpen ++ (v ++ (vClose ++ subParent g a v rest))) := by
        simp [parentG1, List.append_assoc]
      rw [eL, eR]
      exact SwapRel.append_left _ (SwapRel.swap ver hne hltf ih)
    | none =>
      rw [subParent_eq_nomatch hm]
      exact SwapRel.keep c (subParent_swapRel g a v cs)
termination_by s => s.length
decreasing_by all_goals first
  | exact hlt
  | simp

theorem subDep_swapRel (g a v : List Char) :
    ∀ s : List Char, SwapRel vOpen vClose v s (subDep g a v s)
  | [] => SwapRel.nil
  | c :: cs => by
    cases hm : matchDepHere g a (c :: cs) with
    | some r =>
      rw [subDep_eq_match hm]
      obtain ⟨g1, ver, rest⟩ := r
      have hlt : rest.length < (c :: cs).length := matchDepHere_rest_length hm
      obtain ⟨w1, w2, w3, sk, hw1, hw2, hw3, hsk, hne, hltf, hg1, hshape⟩ :=
        matchDepHere_iff.mp hm
      have ih := subDep_swapRel g a v rest
      rw [hshape, hg1]
      have eL : depShape g a w1 w2 w3 sk ver rest =
          ("<dependency>".toList ++ w1 ++ gidLit g ++ w2 ++ aidLit a ++ w3 ++ sk)
            ++ (vOpen ++ (ver ++ (vClose ++ rest))) := by
        simp [depShape, List.append_assoc]
      have eR : depG1 g a w1 w2 w3 sk ++ v ++ vClose ++ subDep g a v rest =
          ("<dependency>".toList ++ w1 ++ gidLit g ++ w2 ++ aidLit a ++ w3 ++ sk)
            ++ (vOpen ++ (v ++ (vClose ++ subDep g a v rest))) := by
        simp [depG1, List.append_assoc]
      rw [eL, eR]
      exact SwapRel.append_left _ (SwapRel.swap ver hne hltf ih)
    | none =>
      rw [subDep_eq_nomatch hm]
      exact SwapRel.keep c (subDep_swapRel g a v cs)
termination_by s => s.length
decreasing_by all_goals first
  | exact hlt
  | simp

theorem subProp_swapRel (nm v : List Char) :
    ∀ s : List Char, SwapRel (tagOpen nm) (tagClose nm) v s (subProp nm v s)
  | [] => SwapRel.nil
  | c :: cs => by
    cases hm : matchPropHere nm (c :: cs) with
    | some r =>
      rw [subProp_eq_match hm]
      obtain ⟨ver, rest⟩ := r
      have hlt : rest.length < (c :: cs).length := matchPropHere_rest_length hm
      obtain ⟨hne, hltf, hshape⟩ := matchPropHere_iff.mp hm
      have ih := subProp_swapRel nm v rest
      rw [hshape]
      have eR : tagOpen nm ++ v ++ tagClose nm ++ subProp nm v rest =
          tagOpen nm ++ (v ++ (tagClose nm ++ subProp nm v rest)) := by
        simp [List.append_assoc]
      rw [propShape, eR]
      exact SwapRel.swap ver hne hltf ih
    | none =>
      rw [subProp_eq_nomatch hm]
      exact SwapRel.keep c (subProp_swapRel nm v cs)
termination_by s => s.length
decreasing_by all_goals first
  | exact hlt
  | simp

/-! ### Unfolding lemmas for the entry points -/

theorem update_parent_nomatch {pom g a V : List Char}
    (h : searchParent g a pom = none) :
    update_parent_version pom g a V = (pom, none, []) := by
  unfold update_parent_version
  rw [h]

theorem update_parent_noop {pom g a V ver : List Char}
    (h : searchParent g a pom = some ver) (heq : strip ver = V) :
    update_parent_version pom g a V = (pom, none, []) := by
  unfold update_parent_version
  rw [h]
  simp [heq]

theorem update_parent_snap {pom g a V ver : List Char}
    (h : searchParent g a pom = some ver) (hne : strip ver ≠ V)
    (hsnap : hasSub snapshotMark (strip ver) = true) :
    update_parent_version pom g a V =
      (pom, none, [LogEvent.skipSnapshotVersion (strip ver)]) := by
  unfold update_parent_version
  rw [h]
  simp [hne, hsnap]

theorem update_parent_go {pom g a V ver : List Char}
    (h : searchParent g a pom = some ver) (hne : strip ver ≠ V)
    (hsnap : hasSub snapshotMark (strip ver) = false) :
    update_parent_version pom g a V = (subParent g a V pom, some (strip ver), []) := by
  unfold update_parent_version
  rw [h]
  simp [hne, hsnap]

theorem update_dep_nomatch {pom g a V : List Char} {all : List (List Char × List Char)}
    (h : searchDep g a pom = none) :
    update_dependency_version pom g a V all = (pom, none, [], []) := by
  unfold update_dependency_version
  rw [h]

theorem update_dep_prop {pom g a V ver nm : List Char} {all : List (List Char × List Char)}
    (h : searchDep g a pom = some ver) (hp : propRefName (strip ver) = some nm) :
    update_dependency_version pom g a V all = update_property_version pom nm V all := by
  unfold update_dependency_version
  rw [h]
  simp [hp]

theorem update_dep_noop {pom g a V ver : List Char} {all : List (List Char × List Char)}
    (h : searchDep g a pom = some ver) (hp : propRefName (strip ver) = none)
    (heq : strip ver = V) :
    update_dependency_version pom g a V all = (pom, none, [], []) := by
  unfold update_dependency_version
  rw [h]
  rw [heq] at hp
  simp [hp, heq]

theorem update_dep_snap {pom g a V ver : List Char} {all : List (List Char × List Char)}
    (h : searchDep g a pom = some ver) (hp : propRefName (strip ver) = none)
    (hne : strip ver ≠ V) (hsnap : hasSub snapshotMark (strip ver) = true) :
    update_dependency_version pom g a V all =
      (pom, none, [], [LogEvent.skipSnapshotVersion (strip ver)]) := by
  unfold update_dependency_version
  rw [h]
  simp [hp, hne, hsnap]

theorem update_dep_go {pom g a V ver : List Char} {all : List (List Char × List Char)}
    (h : searchDep g a pom = some ver) (hp : propRefName (strip ver) = none)
    (hne : strip ver ≠ V) (hsnap : hasSub snapshotMark (strip ver) = false) :
    update_dependency_version pom g a V all =
      (subDep g a V pom, some (strip ver), [], []) := by
  unfold update_dependency_version
  rw [h]
  simp [hp, hne, hsnap]

theorem update_prop_cur_noop {pom nm V ver : List Char} {all : List (List Char × List Char)}
    (h : searchProp nm pom = some ver) (heq : strip ver = V) :
    update_property_version pom nm V all = (pom, none, [], []) := by
  unfold update_property_version
  rw [h]
  simp [heq]

theorem update_prop_cur_snap {pom nm V ver : List Char} {all : List (List Char × List Char)}
    (h : searchProp nm pom = some ver) (hne : strip ver ≠ V)
    (hsnap : hasSub snapshotMark (strip ver) = true) :
    update_property_version pom nm V all =
      (pom, none, [], [LogEvent.skipSnapshotProperty (strip ver)]) := by
  unfold update_property_version
  rw [h]
  simp [hne, hsnap]

theorem update_prop_cur_go {pom nm V ver : List Char} {all : List (List Char × List Char)}
    (h : searchProp nm pom = some ver) (hne : strip ver ≠ V)
    (hsnap : hasSub snapshotMark (strip ver) = false) :
    update_property_version pom nm V all =
      (subProp nm V pom, some (strip ver), [], []) := by
  unfold update_property_version
  rw [h]
  simp [hne, hsnap]

theorem update_prop_others {pom nm V : List Char} {all : List (List Char × List Char)}
    (h : searchProp nm pom = none) :
    update_property_version pom nm V all = findPropertyInOthers pom nm V all := by
  unfold update_property_version
  rw [h]

theorem findOthers_skip {pom nm V : List Char} {pre rest : List (List Char × List Char)}
    (h : ∀ q d, (q, d) ∈ pre → searchProp nm d = none) :
    findPropertyInOthers pom nm V (pre ++ rest) = findPropertyInOthers pom nm V rest := by
  induction pre with
  | nil => rfl
  | cons qd l ih =>
    obtain ⟨q, d⟩ := qd
    have h0 : searchProp nm d = none := h q d (List.mem_cons_self _ _)
    have ih' := ih (fun q' d' hm => h q' d' (List.mem_cons_of_mem _ hm))
    rw [List.cons_append]
    conv_lhs => rw [findPropertyInOthers]
    simp only [h0]
    exact ih' 

theorem findOthers_none {pom nm V : List Char} {l : List (List Char × List Char)}
    (h : ∀ q d, (q, d) ∈ l → searchProp nm d = none) :
    findPropertyInOthers pom nm V l =
      (pom, none, [], [LogEvent.warnPropertyNotFound nm]) := by
  have := @findOthers_skip pom nm V l ([] : List (List Char × List Char)) h
  rw [List.append_nil] at this
  rw [this]
  rfl

theorem findOthers_hit_noop {pom nm V p c ver : List Char} {rest : List (List Char × List Char)}
    (h : searchProp nm c = some ver) (heq : strip ver = V) :
    findPropertyInOthers pom nm V ((p, c) :: rest) = (pom, none, [], []) := by
  unfold findPropertyInOthers
  rw [h]
  simp [heq]

theorem findOthers_hit_snap {pom nm V p c ver : List Char} {rest : List (List Char × List Char)}
    (h : searchProp nm c = some ver) (hne : strip ver ≠ V)
    (hsnap : hasSub snapshotMark (strip ver) = true) :
    findPropertyInOthers pom nm V ((p, c) :: rest) =
      (pom, none, [], [LogEvent.skipSnapshotProperty (strip ver)]) := by
  unfold findPropertyInOthers
  rw [h]
  simp [hne, hsnap]

theorem findOthers_hit_go {pom nm V p c ver : List Char} {rest : List (List Char × List Char)}
    (h : searchProp nm c = some ver) (hne : strip ver ≠ V)
    (hsnap : hasSub snapshotMark (strip ver) = false) :
    findPropertyInOthers pom nm V ((p, c) :: rest) =
      (pom, some (strip ver), [(p, subProp nm V c)], []) := by
  unfold findPropertyInOthers
  rw [h]
  simp [hne, hsnap]

theorem findOthers_fst (pom nm V : List Char) (l : List (List Char × List Char)) :
    (findPropertyInOthers pom nm V l).1 = pom := by
  induction l with
  | nil => rfl
  | cons qd rest ih =>
    obtain ⟨q, d⟩ := qd
    unfold findPropertyInOthers
    split
    · exact ih
    · split
      · rfl
      · split
        · rfl
        · rfl

/-! ### Concrete documents used by witnesses and counterexamples -/

def coordG : List Char := "g".toList
def coordA : List Char := "a".toList

/-- A parent POM with surrounding structure (cf. the repository's test data). -/
def dParent : List Char :=
  ("<project>\n  <parent>\n    <groupId>g</groupId>\n    <artifactId>a</artifactId>\n    <version>1.4.2</version>\n    <relativePath/>\n  </parent>\n</project>\n").toList

/-- A parent POM whose version text carries surrounding whitespace. -/
def dParentWs : List Char :=
  ("<project>\n  <parent>\n    <groupId>g</groupId>\n    <artifactId>a</artifactId>\n    <version> 1.4.4 </version>\n  </parent>\n</project>\n").toList

/-- A parent POM at a SNAPSHOT version. -/
def dSnap : List Char :=
  ("<project>\n  <parent>\n    <groupId>g</groupId>\n    <artifactId>a</artifactId>\n    <version>1.5.0-SNAPSHOT</version>\n  </parent>\n</project>\n").toList

/-- A POM declaring the same coordinate twice with different literal versions
(a dependencyManagement entry and a dependency entry). -/
def dDepTwo : List Char :=
  ("<project>\n  <dependency>\n    <groupId>g</groupId>\n    <artifactId>a</artifactId>\n    <version>1.0.0</version>\n  </dependency>\n  <dependency>\n    <groupId>g</groupId>\n    <artifactId>a</artifactId>\n    <version>1.1.0</version>\n  </dependency>\n</project>\n").toList

/-- A POM whose dependency version is a property reference and which also
holds the property definition itself. -/
def dDepProp : List Char :=
  ("<project>\n  <properties>\n    <p.version>1.2.3</p.version>\n  </properties>\n  <dependency>\n    <groupId>g</groupId>\n    <artifactId>a</artifactId>\n    <version>$\x7bp.version\x7d</version>\n  </dependency>\n</project>\n").toList

/-- A POM whose dependency version is a property reference with no local
definition. -/
def dChild : List Char :=
  ("<project>\n  <dependency>\n    <groupId>g</groupId>\n    <artifactId>a</artifactId>\n    <version>$\x7bp.version\x7d</version>\n  </dependency>\n</project>\n").toList

/-- A POM defining the property `p.version`. -/
def dRoot : List Char :=
  ("<project>\n  <properties>\n    <p.version>1.2.3</p.version>\n  </properties>\n</project>\n").toList

/-- A second POM also defining `p.version` (for first-match-wins). -/
def dRootB : List Char :=
  ("<project>\n  <properties>\n    <p.version>9.9.9</p.version>\n  </properties>\n</project>\n").toList

/-- A dependency block with `<scope>` and `<type>` between the artifactId and
version elements (the document starts at the block so that the shape theorem
applies at position 0). -/
def dDepScope : List Char :=
  ("<dependency>\n  <groupId>g</groupId>\n  <artifactId>a</artifactId>\n  <scope>test</scope>\n  <type>jar</type>\n  <version>2.0.0</version>\n</dependency>\n").toList

/-- A parent POM whose version element holds nested markup instead of text. -/
def dNested : List Char :=
  ("<project>\n  <parent>\n    <groupId>g</groupId>\n    <artifactId>a</artifactId>\n    <version><b>1</b></version>\n  </parent>\n</project>\n").toList

/-- A parent POM whose version element is empty. -/
def dEmptyVer : List Char :=
  ("<project>\n  <parent>\n    <groupId>g</groupId>\n    <artifactId>a</artifactId>\n    <version></version>\n  </parent>\n</project>\n").toList

/-! ### C9 -/

/-- C9: the already-current guard compares the whitespace-stripped version
text with the target: whenever the (leftmost) matched version (or property)
element's stripped text equals the target version, each rewrite path returns
the document byte-identical with no old version reported; and whenever a
rewrite path reports an old version, that old version is exactly the stripped
text of the matched element. -/
theorem guards_use_stripped_text :
    (∀ pom g a V ver, searchParent g a pom = some ver → strip ver = V →
        update_parent_version pom g a V = (pom, none, [])) ∧
    (∀ pom g a V ver old, searchParent g a pom = some ver →
        (update_parent_version pom g a V).2.1 = some old → old = strip ver) ∧
    (∀ pom g a V all ver, searchDep g a pom = some ver → propRefName (strip ver) = none →
        strip ver = V → update_dependency_version pom g a V all = (pom, none, [], [])) ∧
    (∀ pom g a V all ver old, searchDep g a pom = some ver →
        propRefName (strip ver) = none →
        (update_dependency_version pom g a V all).2.1 = some old → old = strip ver) ∧
    (∀ pom nm V all ver, searchProp nm pom = some ver → strip ver = V →
        update_property_version pom nm V all = (pom, none, [], [])) ∧
    (∀ pom nm V all ver old, searchProp nm pom = some ver →
        (update_property_version pom nm V all).2.1 = some old → old = strip ver) := by
  refine ⟨?_, ?_, ?_, ?_, ?_, ?_⟩
  · intro pom g a V ver h heq
    exact update_parent_noop h heq
  · intro pom g a V ver old h hold
    by_cases heq : strip ver = V
    · rw [update_parent_noop h heq] at hold
      exact absurd hold (by simp)
    · by_cases hsnap : hasSub snapshotMark (strip ver) = true
      · rw [update_parent_snap h heq hsnap] at hold
        exact absurd hold (by simp)
      · rw [update_parent_go h heq (by simpa using hsnap)] at hold
        injection hold with hold
        exact hold.symm
  · intro pom g a V all ver h hp heq
    exact update_dep_noop h hp heq
  · intro pom g a V all ver old h hp hold
    by_cases heq : strip ver = V
    · rw [update_dep_noop h hp heq] at hold
      exact absurd hold (by simp)
    · by_cases hsnap : hasSub snapshotMark (strip ver) = true
      · rw [update_dep_snap h hp heq hsnap] at hold
        exact absurd hold (by simp)
      · rw [update_dep_go h hp heq (by simpa using hsnap)] at hold
        injection hold with hold
        exact hold.symm
  · intro pom nm V all ver h heq
    exact update_prop_cur_noop h heq
  · intro pom nm V all ver old h hold
    by_cases heq : strip ver = V
    · rw [update_prop_cur_noop h heq] at hold
      exact absurd hold (by simp)
    · by_cases hsnap : hasSub snapshotMark (strip ver) = true
      · rw [update_prop_cur_snap h heq hsnap] at hold
        exact absurd hold (by simp)
      · rw [update_prop_cur_go h heq (by simpa using hsnap)] at hold
        injection hold with hold
        exact hold.symm

/-- C9 witness: `<version> 1.4.4 </version>` with target `1.4.4` is treated as
already current and the document is returned byte-identical. -/
theorem guards_use_stripped_text_witness :
    update_parent_version dParentWs coordG coordA ("1.4.4".toList) =
      (dParentWs, none, []) :=
  guards_use_stripped_text.1 dParentWs coordG coordA ("1.4.4".toList)
    (" 1.4.4 ".toList) (by decide) (by decide)

/-! ### C5 -/

/-- C5 counterexample: for a matched parent version `1.5.0-SNAPSHOT` and
target `1.5.0-SNAPSHOT` (a target equal to the current version), the rewrite
does refuse, but the claimed explicit skip log is absent: the already-current
guard runs first and returns silently, so the skip is *not* logged
"regardless of the target version". -/
theorem snapshot_skip_unlogged_counterexample :
    hasSub snapshotMark
        (strip (match searchParent coordG coordA dSnap with
          | some ver => ver
          | none => [])) = true ∧
    update_parent_version dSnap coordG coordA ("1.5.0-SNAPSHOT".toList) =
      (dSnap, none, []) := by
  constructor
  · decide
  · decide

/-- C5 as amended: for every current version value (matched parent or
dependency literal, or resolved property value in the declaring document or a
supplied one) containing `SNAPSHOT`, the rewrite refuses: the document comes
back unchanged with no old version; the explicit skip log entry is emitted
exactly when the current value does not already equal the target (in that case
the already-current guard returns first, without logging). -/
theorem snapshot_refusal :
    (∀ pom g a V ver, searchParent g a pom = some ver →
        hasSub snapshotMark (strip ver) = true →
        (update_parent_version pom g a V).1 = pom ∧
        (update_parent_version pom g a V).2.1 = none ∧
        (strip ver ≠ V → (update_parent_version pom g a V).2.2 =
          [LogEvent.skipSnapshotVersion (strip ver)])) ∧
    (∀ pom g a V all ver, searchDep g a pom = some ver →
        propRefName (strip ver) = none →
        hasSub snapshotMark (strip ver) = true →
        (update_dependency_version pom g a V all).1 = pom ∧
        (update_dependency_version pom g a V all).2.1 = none ∧
        (update_dependency_version pom g a V all).2.2.1 = [] ∧
        (strip ver ≠ V → (update_dependency_version pom g a V all).2.2.2 =
          [LogEvent.skipSnapshotVersion (strip ver)])) ∧
    (∀ pom nm V all ver, searchProp nm pom = some ver →
        hasSub snapshotMark (strip ver) = true →
        (update_property_version pom nm V all).1 = pom ∧
        (update_property_version pom nm V all).2.1 = none ∧
        (update_property_version pom nm V all).2.2.1 = [] ∧
        (strip ver ≠ V → (update_property_version pom nm V all).2.2.2 =
          [LogEvent.skipSnapshotProperty (strip ver)])) ∧
    (∀ pom nm V p c ver rest, searchProp nm pom = none → searchProp nm c = some ver →
        hasSub snapshotMark (strip ver) = true →
        (update_property_version pom nm V ((p, c) :: rest)).1 = pom ∧
        (update_property_version pom nm V ((p, c) :: rest)).2.1 = none ∧
        (update_property_version pom nm V ((p, c) :: rest)).2.2.1 = [] ∧
        (strip ver ≠ V → (update_property_version pom nm V ((p, c) :: rest)).2.2.2 =
          [LogEvent.skipSnapshotProperty (strip ver)])) := by
  refine ⟨?_, ?_, ?_, ?_⟩
  · intro pom g a V ver h hsnap
    by_cases heq : strip ver = V
    · rw [update_parent_noop h heq]
      exact ⟨rfl, rfl, fun hne => absurd heq hne⟩
    · rw [update_parent_snap h heq hsnap]
      exact ⟨rfl, rfl, fun _ => rfl⟩
  · intro pom g a V all ver h hp hsnap
    by_cases heq : strip ver = V
    · rw [update_dep_noop h hp heq]
      exact ⟨rfl, rfl, rfl, fun hne => absurd heq hne⟩
    · rw [update_dep_snap h hp heq hsnap]
      exact ⟨rfl, rfl, rfl, fun _ => rfl⟩
  · intro pom nm V all ver h hsnap
    by_cases heq : strip ver = V
    · rw [update_prop_cur_noop h heq]
      exact ⟨rfl, rfl, rfl, fun hne => absurd heq hne⟩
    · rw [update_prop_cur_snap h heq hsnap]
      exact ⟨rfl, rfl, rfl, fun _ => rfl⟩
  · intro pom nm V p c ver rest h hc hsnap
    rw [update_prop_others h]
    by_cases heq : strip ver = V
    · rw [findOthers_hit_noop hc heq]
      exact ⟨rfl, rfl, rfl, fun hne => absurd heq hne⟩
    · rw [findOthers_hit_snap hc heq hsnap]
      exact ⟨rfl, rfl, rfl, fun _ => rfl⟩

/-- C5 witness: a SNAPSHOT parent version with a different target is refused
and the skip is logged. -/
theorem snapshot_refusal_witness :
    (update_parent_version dSnap coordG coordA ("1.5.0".toList)).1 = dSnap ∧
    (update_parent_version dSnap coordG coordA ("1.5.0".toList)).2.1 = none ∧
    (update_parent_version dSnap coordG coordA ("1.5.0".toList)).2.2 =
      [LogEvent.skipSnapshotVersion ("1.5.0-SNAPSHOT".toList)] := by
  have h := snapshot_refusal.1 dSnap coordG coordA ("1.5.0".toList)
    ("1.5.0-SNAPSHOT".toList) (by decide) (by decide)
  exact ⟨h.1, h.2.1, h.2.2 (by decide)⟩

/-! ### C8 -/

/-- C8: a dependency whose version is a property reference with no matching
definition in the declaring document nor in any supplied document produces the
`::warning::` log entry and returns the declaring document unchanged, no old
version, and an empty map of updated files (no error is raised: the function
totalises this case as a normal return). -/
theorem unresolved_property_warns {pom g a V ver nm : List Char}
    {all : List (List Char × List Char)}
    (h : searchDep g a pom = some ver) (hp : propRefName (strip ver) = some nm)
    (hcur : searchProp nm pom = none)
    (hall : ∀ p c, (p, c) ∈ all → searchProp nm c = none) :
    update_dependency_version pom g a V all =
      (pom, none, [], [LogEvent.warnPropertyNotFound nm]) := by
  rw [update_dep_prop h hp, update_prop_others hcur, findOthers_none hall]

/-- C8 witness: the concrete reference `${p.version}` with no definition
anywhere. -/
theorem unresolved_property_warns_witness :
    update_dependency_version dChild coordG coordA ("1.3.0".toList) [] =
      (dChild, none, [], [LogEvent.warnPropertyNotFound ("p.version".toList)]) :=
  @unresolved_property_warns dChild coordG coordA ("1.3.0".toList)
    ("$\x7bp.version\x7d".toList) ("p.version".toList) [] (by decide) (by decide)
    (by decide) (fun p c hm => absurd hm (by simp))

/-! ### C6 -/

/-- C6: property resolution order.  (1) If the declaring document defines the
property, the other supplied documents are never consulted: the result is the
same as with no other documents at all.  (2) Otherwise the supplied documents
are scanned in order; the first one containing a definition wins, the
definition is rewritten there, and any later documents (which may define the
same property) are ignored entirely. -/
theorem property_first_match_wins :
    (∀ pom nm V all ver, searchProp nm pom = some ver →
        update_property_version pom nm V all = update_property_version pom nm V []) ∧
    (∀ pom nm V ver p c pre post, searchProp nm pom = none →
        (∀ q d, (q, d) ∈ pre → searchProp nm d = none) →
        searchProp nm c = some ver → strip ver ≠ V →
        hasSub snapshotMark (strip ver) = false →
        update_property_version pom nm V (pre ++ (p, c) :: post) =
          (pom, some (strip ver), [(p, subProp nm V c)], [])) := by
  constructor
  · intro pom nm V all ver h
    unfold update_property_version
    rw [h]
  · intro pom nm V ver p c pre post h hpre hc hne hsnap
    rw [update_prop_others h, findOthers_skip hpre, findOthers_hit_go hc hne hsnap]

/-- C6 witness: two supplied documents both define `p.version`; only the
first is rewritten, the second is ignored. -/
theorem property_first_match_wins_witness :
    update_property_version dChild ("p.version".toList) ("1.3.0".toList)
        [("A".toList, dRoot), ("B".toList, dRootB)] =
      (dChild, some ("1.2.3".toList),
        [("A".toList, subProp ("p.version".toList) ("1.3.0".toList) dRoot)], []) :=
  property_first_match_wins.2 dChild ("p.version".toList) ("1.3.0".toList)
    ("1.2.3".toList) ("A".toList) dRoot [] [("B".toList, dRootB)]
    (by decide) (fun q d hm => absurd hm (by simp)) (by decide) (by decide) (by decide)

/-! ### C2 -/

theorem findOthers_cons_none {pom nm V q d : List Char} {rest : List (List Char × List Char)}
    (hd : searchProp nm d = none) :
    findPropertyInOthers pom nm V ((q, d) :: rest) = findPropertyInOthers pom nm V rest := by
  conv_lhs => rw [findPropertyInOthers]
  simp only [hd]

theorem findOthers_old_some {pom nm V old : List Char} {l : List (List Char × List Char)}
    (h : (findPropertyInOthers pom nm V l).2.1 = some old) :
    ∃ p c, (p, c) ∈ l ∧
      (findPropertyInOthers pom nm V l).2.2.1 = [(p, subProp nm V c)] := by
  induction l with
  | nil => exact absurd h (by simp [findPropertyInOthers])
  | cons qd rest ih =>
    obtain ⟨q, d⟩ := qd
    cases hd : searchProp nm d with
    | none =>
      rw [findOthers_cons_none hd] at h ⊢
      obtain ⟨p, c, hm, he⟩ := ih h
      exact ⟨p, c, List.mem_cons_of_mem _ hm, he⟩
    | some ver =>
      by_cases heq : strip ver = V
      · rw [findOthers_hit_noop hd heq] at h
        exact absurd h (by simp)
      · by_cases hsnap : hasSub snapshotMark (strip ver) = true
        · rw [findOthers_hit_snap hd heq hsnap] at h
          exact absurd h (by simp)
        · rw [findOthers_hit_go hd heq (by simpa using hsnap)]
          exact ⟨q, d, List.mem_cons_self _ _, rfl⟩

/-- C2 counterexample: for a dependency whose version is the property
reference `${p.version}` and whose property definition lives *in the declaring
document itself*, a successful rewrite modifies the declaring document (its
property definition) and returns an empty map — not an unchanged declaring
document together with a one-entry map, as the claim states for every
property-referencing dependency. -/
theorem property_indirection_counterexample :
    (update_dependency_version dDepProp coordG coordA ("1.3.0".toList) []).2.1 =
      some ("1.2.3".toList) ∧
    (update_dependency_version dDepProp coordG coordA ("1.3.0".toList) []).1 ≠ dDepProp ∧
    (update_dependency_version dDepProp coordG coordA ("1.3.0".toList) []).2.2.1 = [] := by
  refine ⟨?_, ?_, ?_⟩ <;> decide

/-- C2 as amended: when a dependency's version text is a property reference
`${nm}` and the rewrite succeeds (an old version is reported), then either the
property was defined in the declaring document itself — in which case that
document is returned with the property definition rewritten and the map of
other updated files is empty — or the property was resolved in one of the
other supplied documents, in which case the declaring document (and so the
`${nm}` reference text inside it) is returned unchanged and the map holds
exactly that one file, rewritten by the property pattern. -/
theorem property_indirection_shape {pom g a V ver nm old : List Char}
    {all : List (List Char × List Char)}
    (h : searchDep g a pom = some ver) (hp : propRefName (strip ver) = some nm)
    (hold : (update_dependency_version pom g a V all).2.1 = some old) :
    ((update_dependency_version pom g a V all).1 = subProp nm V pom ∧
      (update_dependency_version pom g a V all).2.2.1 = []) ∨
    ((update_dependency_version pom g a V all).1 = pom ∧
      ∃ p c, (p, c) ∈ all ∧
        (update_dependency_version pom g a V all).2.2.1 = [(p, subProp nm V c)]) := by
  rw [update_dep_prop h hp] at hold ⊢
  cases hcur : searchProp nm pom with
  | some ver' =>
    by_cases heq : strip ver' = V
    · rw [update_prop_cur_noop hcur heq] at hold
      exact absurd hold (by simp)
    · by_cases hsnap : hasSub snapshotMark (strip ver') = true
      · rw [update_prop_cur_snap hcur heq hsnap] at hold
        exact absurd hold (by simp)
      · rw [update_prop_cur_go hcur heq (by simpa using hsnap)]
        exact Or.inl ⟨rfl, rfl⟩
  | none =>
    rw [update_prop_others hcur] at hold ⊢
    exact Or.inr ⟨findOthers_fst pom nm V all, findOthers_old_some hold⟩

/-- C2 witness: the cross-file scenario — document A references
`${p.version}`, document B defines it; A comes back unchanged and the map
holds exactly B. -/
theorem property_indirection_shape_witness :
    ((update_dependency_version dChild coordG coordA ("1.3.0".toList)
        [("B".toList, dRoot)]).1 =
          subProp ("p.version".toList) ("1.3.0".toList) dChild ∧
      (update_dependency_version dChild coordG coordA ("1.3.0".toList)
        [("B".toList, dRoot)]).2.2.1 = []) ∨
    ((update_dependency_version dChild coordG coordA ("1.3.0".toList)
        [("B".toList, dRoot)]).1 = dChild ∧
      ∃ p c, (p, c) ∈ [("B".toList, dRoot)] ∧
        (update_dependency_version dChild coordG coordA ("1.3.0".toList)
          [("B".toList, dRoot)]).2.2.1 =
            [(p, subProp ("p.version".toList) ("1.3.0".toList) c)]) :=
  @property_indirection_shape dChild coordG coordA ("1.3.0".toList)
    ("$\x7bp.version\x7d".toList) ("p.version".toList) ("1.2.3".toList)
    [("B".toList, dRoot)] (by decide) (by decide) (by decide)

/-! ### C1 -/

/-- C1 counterexample: no validation of the target version exists.  With the
target string `2.0</version><evil>` — which contains `<` and `>` — the parent
rewrite does not refuse: it reports the old version `1.4.2` and returns a
document that differs from its input (the malicious string is substituted
into the document text). -/
theorem no_validation_counterexample :
    (update_parent_version dParent coordG coordA ("2.0</version><evil>".toList)).2.1 =
      some ("1.4.2".toList) ∧
    (update_parent_version dParent coordG coordA ("2.0</version><evil>".toList)).1 ≠
      dParent := by
  constructor <;> decide

/-- C1 as amended: the rewrite entry points perform no validation of the
target version string.  For every backslash-free target version V — whatever
characters it contains, including `<`, `>` and `$` — whenever a declaration is
matched whose stripped current value differs from V and is not a SNAPSHOT,
the pattern substitution is performed with V spliced in verbatim and the old
version is reported.  (Backslashes are excluded only because Python's `re.sub`
gives them replacement-template meaning, which this model does not cover.) -/
theorem no_target_validation :
    (∀ pom g a V ver, '\\' ∉ V → searchParent g a pom = some ver → strip ver ≠ V →
        hasSub snapshotMark (strip ver) = false →
        update_parent_version pom g a V = (subParent g a V pom, some (strip ver), [])) ∧
    (∀ pom g a V all ver, '\\' ∉ V → searchDep g a pom = some ver →
        propRefName (strip ver) = none → strip ver ≠ V →
        hasSub snapshotMark (strip ver) = false →
        update_dependency_version pom g a V all =
          (subDep g a V pom, some (strip ver), [], [])) ∧
    (∀ pom nm V all ver, '\\' ∉ V → searchProp nm pom = some ver → strip ver ≠ V →
        hasSub snapshotMark (strip ver) = false →
        update_property_version pom nm V all =
          (subProp nm V pom, some (strip ver), [], [])) ∧
    (∀ pom nm V p c ver rest, '\\' ∉ V → searchProp nm pom = none →
        searchProp nm c = some ver → strip ver ≠ V →
        hasSub snapshotMark (strip ver) = false →
        update_property_version pom nm V ((p, c) :: rest) =
          (pom, some (strip ver), [(p, subProp nm V c)], [])) := by
  refine ⟨?_, ?_, ?_, ?_⟩
  · intro pom g a V ver hbs h hne hsnap
    exact update_parent_go h hne hsnap
  · intro pom g a V all ver hbs h hp hne hsnap
    exact update_dep_go h hp hne hsnap
  · intro pom nm V all ver hbs h hne hsnap
    exact update_prop_cur_go h hne hsnap
  · intro pom nm V p c ver rest hbs h hc hne hsnap
    rw [update_prop_others h, findOthers_hit_go hc hne hsnap]

/-- C1 amended witness: the malicious target is substituted verbatim. -/
theorem no_target_validation_witness :
    update_parent_version dParent coordG coordA ("2.0</version><evil>".toList) =
      (subParent coordG coordA ("2.0</version><evil>".toList) dParent,
        some ("1.4.2".toList), []) :=
  no_target_validation.1 dParent coordG coordA ("2.0</version><evil>".toList)
    ("1.4.2".toList) (by decide) (by decide) (by decide) (by decide)

/-! ### C3 -/

theorem findOthers_upd (pom nm V : List Char) (l : List (List Char × List Char)) :
    (findPropertyInOthers pom nm V l).2.2.1 = [] ∨
    ∃ p c, (p, c) ∈ l ∧
      (findPropertyInOthers pom nm V l).2.2.1 = [(p, subProp nm V c)] := by
  induction l with
  | nil => exact Or.inl rfl
  | cons qd rest ih =>
    obtain ⟨q, d⟩ := qd
    cases hd : searchProp nm d with
    | none =>
      rw [findOthers_cons_none hd]
      rcases ih with h | ⟨p, c, hm, he⟩
      · exact Or.inl h
      · exact Or.inr ⟨p, c, List.mem_cons_of_mem _ hm, he⟩
    | some ver =>
      by_cases heq : strip ver = V
      · rw [findOthers_hit_noop hd heq]
        exact Or.inl rfl
      · by_cases hsnap : hasSub snapshotMark (strip ver) = true
        · rw [findOthers_hit_snap hd heq hsnap]
          exact Or.inl rfl
        · rw [findOthers_hit_go hd heq (by simpa using hsnap)]
          exact Or.inr ⟨q, d, List.mem_cons_self _ _, rfl⟩

/-- C3 counterexample: with the same coordinate declared twice (versions
`1.0.0` and `1.1.0`), the rewrite reports the first old version but replaces
*both* matched version texts: the second, non-targeted element's text `1.1.0`
is no longer present in the output, so the result differs from the input in
more than the single targeted version element. -/
theorem single_element_frame_counterexample :
    (update_dependency_version dDepTwo coordG coordA ("2.0.0".toList) []).2.1 =
      some ("1.0.0".toList) ∧
    hasSub ("1.1.0".toList) dDepTwo = true ∧
    hasSub ("1.1.0".toList)
      (update_dependency_version dDepTwo coordG coordA ("2.0.0".toList) []).1 = false := by
  refine ⟨?_, ?_, ?_⟩ <;> decide

/-- C3 as amended: a rewrite either returns a document unchanged or returns a
document that differs from the input only in the text content of version (or
property-definition) elements matched by the rewrite pattern — *every*
non-overlapping match is rewritten to the target, not only the first; all
characters outside the replaced element texts, including whitespace and
sibling elements, are preserved (`SwapRel` states exactly this, and is
reflexive, covering the unchanged case).  For backslash-free targets. -/
theorem rewrite_frame :
    (∀ pom g a V, '\\' ∉ V →
        SwapRel vOpen vClose V pom (update_parent_version pom g a V).1) ∧
    (∀ pom g a V all, '\\' ∉ V →
        SwapRel vOpen vClose V pom (update_dependency_version pom g a V all).1 ∨
        ∃ nm, SwapRel (tagOpen nm) (tagClose nm) V pom
          (update_dependency_version pom g a V all).1) ∧
    (∀ pom g a V all, '\\' ∉ V →
        (update_dependency_version pom g a V all).2.2.1 = [] ∨
        ∃ p c nm, (p, c) ∈ all ∧
          (update_dependency_version pom g a V all).2.2.1 = [(p, subProp nm V c)] ∧
          SwapRel (tagOpen nm) (tagClose nm) V c (subProp nm V c)) := by
  refine ⟨?_, ?_, ?_⟩
  · intro pom g a V hbs
    cases hs : searchParent g a pom with
    | none =>
      rw [update_parent_nomatch hs]
      exact SwapRel.refl _ _ _ _
    | some ver =>
      by_cases heq : strip ver = V
      · rw [update_parent_noop hs heq]
        exact SwapRel.refl _ _ _ _
      · by_cases hsnap : hasSub snapshotMark (strip ver) = true
        · rw [update_parent_snap hs heq hsnap]
          exact SwapRel.refl _ _ _ _
        · rw [update_parent_go hs heq (by simpa using hsnap)]
          exact subParent_swapRel g a V pom
  · intro pom g a V all hbs
    cases hs : searchDep g a pom with
    | none =>
      rw [update_dep_nomatch hs]
      exact Or.inl (SwapRel.refl _ _ _ _)
    | some ver =>
      cases hp : propRefName (strip ver) with
      | none =>
        by_cases heq : strip ver = V
        · rw [update_dep_noop hs hp heq]
          exact Or.inl (SwapRel.refl _ _ _ _)
        · by_cases hsnap : hasSub snapshotMark (strip ver) = true
          · rw [update_dep_snap hs hp heq hsnap]
            exact Or.inl (SwapRel.refl _ _ _ _)
          · rw [update_dep_go hs hp heq (by simpa using hsnap)]
            exact Or.inl (subDep_swapRel g a V pom)
      | some nm =>
        rw [update_dep_prop hs hp]
        refine Or.inr ⟨nm, ?_⟩
        cases hcur : searchProp nm pom with
        | some ver' =>
          by_cases heq : strip ver' = V
          · rw [update_prop_cur_noop hcur heq]
            exact SwapRel.refl _ _ _ _
          · by_cases hsnap : hasSub snapshotMark (strip ver') = true
            · rw [update_prop_cur_snap hcur heq hsnap]
              exact SwapRel.refl _ _ _ _
            · rw [update_prop_cur_go hcur heq (by simpa using hsnap)]
              exact subProp_swapRel nm V pom
        | none =>
          rw [update_prop_others hcur]
          rw [findOthers_fst pom nm V all]
          exact SwapRel.refl _ _ _ _
  · intro pom g a V all hbs
    cases hs : searchDep g a pom with
    | none =>
      rw [update_dep_nomatch hs]
      exact Or.inl rfl
    | some ver =>
      cases hp : propRefName (strip ver) with
      | none =>
        by_cases heq : strip ver = V
        · rw [update_dep_noop hs hp heq]
          exact Or.inl rfl
        · by_cases hsnap : hasSub snapshotMark (strip ver) = true
          · rw [update_dep_snap hs hp heq hsnap]
            exact Or.inl rfl
          · rw [update_dep_go hs hp heq (by simpa using hsnap)]
            exact Or.inl rfl
      | some nm =>
        rw [update_dep_prop hs hp]
        cases hcur : searchProp nm pom with
        | some ver' =>
          by_cases heq : strip ver' = V
          · rw [update_prop_cur_noop hcur heq]
            exact Or.inl rfl
          · by_cases hsnap : hasSub snapshotMark (strip ver') = true
            · rw [update_prop_cur_snap hcur heq hsnap]
              exact Or.inl rfl
            · rw [update_prop_cur_go hcur heq (by simpa using hsnap)]
              exact Or.inl rfl
        | none =>
          rw [update_prop_others hcur]
          rcases findOthers_upd pom nm V all with h | ⟨p, c, hm, he⟩
          · exact Or.inl h
          · exact Or.inr ⟨p, c, nm, hm, he, subProp_swapRel nm V c⟩

/-- C3 amended witness: the frame relation at the concrete two-declaration
document. -/
theorem rewrite_frame_witness :
    SwapRel vOpen vClose ("2.0.0".toList) dDepTwo
        (update_dependency_version dDepTwo coordG coordA ("2.0.0".toList) []).1 ∨
    ∃ nm, SwapRel (tagOpen nm) (tagClose nm) ("2.0.0".toList) dDepTwo
        (update_dependency_version dDepTwo coordG coordA ("2.0.0".toList) []).1 :=
  rewrite_frame.2.1 dDepTwo coordG coordA ("2.0.0".toList) [] (by decide)

/-! ### C7 -/

/-- C7: for a dependency block with zero or more intervening sibling elements
(`SkipTxtOk sk`, e.g. `<scope>`/`<type>` elements with their surrounding
whitespace) between the artifactId and version elements, the rewriter still
locates the version text, and the output reproduces the intervening text `sk`
verbatim in place (it is part of group 1, which the substitution re-emits
unchanged): the result is the same block with only the version text replaced,
followed by the substitution applied to the remaining document. -/
theorem dep_siblings_tolerated {g a V w1 w2 w3 sk oldv tail : List Char}
    {all : List (List Char × List Char)}
    (hw1 : WsRun w1) (hw2 : WsRun w2) (hw3 : WsRun w3) (hsk : SkipTxtOk sk)
    (hne : oldv ≠ []) (hltf : LtFree oldv)
    (hpr : propRefName (strip oldv) = none)
    (hcur : strip oldv ≠ V) (hsnap : hasSub snapshotMark (strip oldv) = false) :
    update_dependency_version (depShape g a w1 w2 w3 sk oldv tail) g a V all =
      (depG1 g a w1 w2 w3 sk ++ V ++ vClose ++ subDep g a V tail,
        some (strip oldv), [], []) := by
  have hm : matchDepHere g a (depShape g a w1 w2 w3 sk oldv tail) =
      some (depG1 g a w1 w2 w3 sk, oldv, tail) :=
    matchDepHere_iff.mpr ⟨w1, w2, w3, sk, hw1, hw2, hw3, hsk, hne, hltf, rfl, rfl⟩
  have hsearch : searchDep g a (depShape g a w1 w2 w3 sk oldv tail) = some oldv :=
    searchDep_of_matchHere hm
  rw [update_dep_go hsearch hpr hcur hsnap, subDep_eq_match hm]

/-- C7 witness: `<scope>test</scope>` and `<type>jar</type>` sit between the
artifactId and version elements; the rewrite succeeds and reproduces them
verbatim. -/
theorem dep_siblings_tolerated_witness :
    update_dependency_version
        (depShape coordG coordA ("\n  ".toList) ("\n  ".toList) ("\n  ".toList)
          ("<scope>test</scope>\n  <type>jar</type>\n  ".toList)
          ("2.0.0".toList) ("\n</dependency>\n".toList)) coordG coordA
        ("3.0.0".toList) [] =
      (depG1 coordG coordA ("\n  ".toList) ("\n  ".toList) ("\n  ".toList)
          ("<scope>test</scope>\n  <type>jar</type>\n  ".toList)
          ++ "3.0.0".toList ++ vClose
          ++ subDep coordG coordA ("3.0.0".toList) ("\n</dependency>\n".toList),
        some ("2.0.0".toList), [], []) :=
  dep_siblings_tolerated (by decide) (by decide) (by decide)
    (SkipTxtOk.elem 's' ("cope>test".toList) ("scope>\n  ".toList)
      ("<type>jar</type>\n  ".toList) (by decide) (by decide) (by decide) (by decide)
      (SkipTxtOk.elem 't' ("ype>jar".toList) ("type>\n  ".toList) [] (by decide)
        (by decide) (by decide) (by decide) SkipTxtOk.nil))
    (by decide) (by decide) (by decide) (by decide) (by decide)

/-! ### C10 -/

theorem dropLit_slash_none {c2 : Char} {Y X : List Char} (h : c2 ≠ '/') :
    dropLit ('<' :: '/' :: Y) ('<' :: c2 :: X) = none := by
  unfold dropLit
  rw [if_neg]
  intro hp
  simp only [List.isPrefixOf, Bool.and_eq_true, beq_iff_eq] at hp
  exact h hp.2.1.symm

/-- The degenerate version-slot contents of C10: empty text, or text whose
first markup character opens a child element (`<` followed by something other
than `/`, i.e. genuinely nested markup rather than an early close tag). -/
def BadSlot (T : List Char) : Prop :=
  T = [] ∨ ∃ pre c2 post, T = pre ++ '<' :: c2 :: post ∧ LtFree pre ∧ c2 ≠ '/'

theorem parent_bad_slot_none {g a w1 w2 w3 T tail : List Char}
    (hw1 : WsRun w1) (hw2 : WsRun w2) (hw3 : WsRun w3) (hT : BadSlot T) :
    matchParentHere g a (parentShape g a w1 w2 w3 T tail) = none := by
  unfold matchParentHere
  rw [parentShape]
  simp only [dropLit_append,
    dropWhile_app hw1 (head_stop (gid_head g _) rfl),
    dropWhile_app hw2 (head_stop (aid_head a _) rfl),
    dropWhile_app hw3 (head_stop (vOpen_head _) rfl)]
  rcases hT with rfl | ⟨pre, c2, post, rfl, hpre, hc2⟩
  · rw [List.nil_append]
    have h1 : ((vClose ++ tail) : List Char).takeWhile notLt = [] := rfl
    rw [h1]
    cases dropLit vClose (((vClose ++ tail) : List Char).dropWhile notLt) with
    | none => rfl
    | some s5 => rfl
  · have e : (pre ++ '<' :: c2 :: post) ++ (vClose ++ tail) =
        pre ++ ('<' :: c2 :: (post ++ (vClose ++ tail))) := by simp
    have hstop : ∀ x, (('<' :: c2 :: (post ++ (vClose ++ tail))) : List Char).head? =
        some x → notLt x = false := by
      intro x hx
      injection hx with hx
      rw [← hx]
      rfl
    have hd : dropLit vClose ('<' :: c2 :: (post ++ (vClose ++ tail))) = none :=
      dropLit_slash_none hc2
    rw [e, takeWhile_app hpre hstop, dropWhile_app hpre hstop, hd]
    cases pre <;> rfl

theorem dep_bad_slot_none {g a w1 w2 w3 sk T tail : List Char}
    (hw1 : WsRun w1) (hw2 : WsRun w2) (hw3 : WsRun w3) (hsk : SkipTxtOk sk)
    (hT : BadSlot T) :
    matchDepHere g a (depShape g a w1 w2 w3 sk T tail) = none := by
  unfold matchDepHere
  rw [depShape]
  simp only [dropLit_append,
    dropWhile_app hw1 (head_stop (gid_head g _) rfl),
    dropWhile_app hw2 (head_stop (aid_head a _) rfl),
    dropWhile_app hw3 (head_stop (skipTxt_vOpen_head hsk _) rfl),
    skipElems_skip hsk]
  rcases hT with rfl | ⟨pre, c2, post, rfl, hpre, hc2⟩
  · rw [List.nil_append]
    have h1 : ((vClose ++ tail) : List Char).takeWhile notLt = [] := rfl
    rw [h1]
    cases dropLit vClose (((vClose ++ tail) : List Char).dropWhile notLt) with
    | none => rfl
    | some s5 => rfl
  · have e : (pre ++ '<' :: c2 :: post) ++ (vClose ++ tail) =
        pre ++ ('<' :: c2 :: (post ++ (vClose ++ tail))) := by simp
    have hstop : ∀ x, (('<' :: c2 :: (post ++ (vClose ++ tail))) : List Char).head? =
        some x → notLt x = false := by
      intro x hx
      injection hx with hx
      rw [← hx]
      rfl
    have hd : dropLit vClose ('<' :: c2 :: (post ++ (vClose ++ tail))) = none :=
      dropLit_slash_none hc2
    rw [e, takeWhile_app hpre hstop, dropWhile_app hpre hstop, hd]
    cases pre <;> rfl

theorem prop_bad_slot_none {nm T tail : List Char} (hT : BadSlot T) :
    matchPropHere nm (tagOpen nm ++ (T ++ (tagClose nm ++ tail))) = none := by
  unfold matchPropHere
  simp only [dropLit_append]
  rcases hT with rfl | ⟨pre, c2, post, rfl, hpre, hc2⟩
  · rw [List.nil_append]
    have h1 : ((tagClose nm ++ tail) : List Char).takeWhile notLt = [] := rfl
    rw [h1]
    cases dropLit (tagClose nm) (((tagClose nm ++ tail) : List Char).dropWhile notLt) with
    | none => rfl
    | some s5 => rfl
  · have e : (pre ++ '<' :: c2 :: post) ++ (tagClose nm ++ tail) =
        pre ++ ('<' :: c2 :: (post ++ (tagClose nm ++ tail))) := by simp
    have hstop : ∀ x, (('<' :: c2 :: (post ++ (tagClose nm ++ tail))) : List Char).head? =
        some x → notLt x = false := by
      intro x hx
      injection hx with hx
      rw [← hx]
      rfl
    have hd : dropLit (tagClose nm) ('<' :: c2 :: (post ++ (tagClose nm ++ tail))) = none :=
      dropLit_slash_none hc2
    rw [e, takeWhile_app hpre hstop, dropWhile_app hpre hstop, hd]
    cases pre <;> rfl

/-- C10: an empty version (or property) element, or one holding nested markup,
never matches.  (1)–(3): any text captured as group 2 by the three patterns is
nonempty and `<`-free, so such an element is never selected.  (4)–(6): a
parent / dependency / property block whose version slot is empty or starts a
child element produces no match at the block at all.  (7)–(8): concretely, the
parent entry point returns the document byte-identical with no old version on
a document whose targeted version element holds `<b>1</b>`, and on one whose
version element is empty. -/
theorem version_text_never_markup :
    (∀ g a s g1 ver rest, matchParentHere g a s = some (g1, ver, rest) →
        ver ≠ [] ∧ ∀ c ∈ ver, c ≠ '<') ∧
    (∀ g a s g1 ver rest, matchDepHere g a s = some (g1, ver, rest) →
        ver ≠ [] ∧ ∀ c ∈ ver, c ≠ '<') ∧
    (∀ nm s ver rest, matchPropHere nm s = some (ver, rest) →
        ver ≠ [] ∧ ∀ c ∈ ver, c ≠ '<') ∧
    (∀ g a w1 w2 w3 T tail, WsRun w1 → WsRun w2 → WsRun w3 → BadSlot T →
        matchParentHere g a (parentShape g a w1 w2 w3 T tail) = none) ∧
    (∀ g a w1 w2 w3 sk T tail, WsRun w1 → WsRun w2 → WsRun w3 → SkipTxtOk sk →
        BadSlot T → matchDepHere g a (depShape g a w1 w2 w3 sk T tail) = none) ∧
    (∀ nm T tail, BadSlot T →
        matchPropHere nm (tagOpen nm ++ (T ++ (tagClose nm ++ tail))) = none) ∧
    update_parent_version dNested coordG coordA ("9.9.9".toList) =
      (dNested, none, []) ∧
    update_parent_version dEmptyVer coordG coordA ("9.9.9".toList) =
      (dEmptyVer, none, []) := by
  refine ⟨?_, ?_, ?_, ?_, ?_, ?_, ?_, ?_⟩
  · intro g a s g1 ver rest h
    obtain ⟨w1, w2, w3, _, _, _, hne, hltf, _, _⟩ := matchParentHere_iff.mp h
    exact ⟨hne, fun c hc => by simpa [notLt] using hltf c hc⟩
  · intro g a s g1 ver rest h
    obtain ⟨w1, w2, w3, sk, _, _, _, _, hne, hltf, _, _⟩ := matchDepHere_iff.mp h
    exact ⟨hne, fun c hc => by simpa [notLt] using hltf c hc⟩
  · intro nm s ver rest h
    obtain ⟨hne, hltf, _⟩ := matchPropHere_iff.mp h
    exact ⟨hne, fun c hc => by simpa [notLt] using hltf c hc⟩
  · intro g a w1 w2 w3 T tail hw1 hw2 hw3 hT
    exact parent_bad_slot_none hw1 hw2 hw3 hT
  · intro g a w1 w2 w3 sk T tail hw1 hw2 hw3 hsk hT
    exact dep_bad_slot_none hw1 hw2 hw3 hsk hT
  · intro nm T tail hT
    exact prop_bad_slot_none hT
  · decide
  · decide

/-- C10 witness: the block-level statement at a concrete nested-markup slot
`<b>1</b>`. -/
theorem version_text_never_markup_witness :
    matchParentHere coordG coordA
      (parentShape coordG coordA ("\n  ".toList) ("\n  ".toList) ("\n  ".toList)
        ("<b>1</b>".toList) ("\n</parent>\n".toList)) = none :=
  version_text_never_markup.2.2.2.1 coordG coordA ("\n  ".toList) ("\n  ".toList)
    ("\n  ".toList) ("<b>1</b>".toList) ("\n</parent>\n".toList)
    (by decide) (by decide) (by decide)
    (Or.inr ⟨[], 'b', ">1</b>".toList, rfl, by decide, by decide⟩)

/-! ### C4: segment machinery

A document splits into a `<`-free lead run followed by segments each starting
at a `<`.  The matchers read whole segments (every literal of the patterns
starts with `<` and every run stops at `<`), so two `SwapRel`-related
documents have pointwise-related segment lists, which lets a match be carried
from one side of the relation to the other. -/

def leadRun (s : List Char) : List Char := s.takeWhile notLt

def segTail (s : List Char) : List Char := s.dropWhile notLt

def splitSeg : List Char → List (List Char)
  | [] => []
  | c :: cs => (c :: cs.takeWhile notLt) :: splitSeg (cs.dropWhile notLt)
termination_by s => s.length
decreasing_by
  have := dropWhile_length_le notLt cs
  simp
  omega

theorem splitSeg_nil : splitSeg [] = [] := by
  rw [splitSeg]

theorem splitSeg_join_aux : ∀ n (s : List Char), s.length ≤ n → (splitSeg s).flatten = s := by
  intro n
  induction n with
  | zero =>
    intro s hs
    have : s = [] := List.eq_nil_of_length_eq_zero (Nat.le_zero.mp hs)
    subst this
    rw [splitSeg_nil]
    rfl
  | succ n ih =>
    intro s hs
    cases s with
    | nil => rw [splitSeg_nil]; rfl
    | cons c cs =>
      rw [splitSeg]
      show (c :: cs.takeWhile notLt) ++ (splitSeg (cs.dropWhile notLt)).flatten = c :: cs
      rw [ih (cs.dropWhile notLt) (by
        have := dropWhile_length_le notLt cs
        simp at hs
        omega)]
      simp [List.takeWhile_append_dropWhile]

theorem splitSeg_join (s : List Char) : (splitSeg s).flatten = s :=
  splitSeg_join_aux s.length s le_rfl

theorem takeWhile_all_app {p : Char → Bool} {w : List Char} (r : List Char)
    (hw : ∀ c ∈ w, p c = true) :
    (w ++ r).takeWhile p = w ++ r.takeWhile p ∧ (w ++ r).dropWhile p = r.dropWhile p := by
  induction w with
  | nil => exact ⟨rfl, rfl⟩
  | cons b bs ih =>
    have hb : p b = true := hw b (List.mem_cons_self _ _)
    have ih' := ih (fun c hc => hw c (List.mem_cons_of_mem _ hc))
    constructor
    · simp [List.takeWhile_cons, hb, ih'.1]
    · simp [List.dropWhile_cons, hb, ih'.2]

theorem headLt_stop {B : List Char} (hB : HeadLt B) :
    ∀ x, B.head? = some x → notLt x = false := by
  intro x hx
  rw [hB x hx]
  rfl

theorem splitSeg_seg {body B : List Char} (hb : LtFree body) (hB : HeadLt B) :
    splitSeg (('<' :: body) ++ B) = ('<' :: body) :: splitSeg B := by
  show splitSeg ('<' :: (body ++ B)) = _
  rw [splitSeg, takeWhile_app hb (headLt_stop hB), dropWhile_app hb (headLt_stop hB)]

theorem splitSeg_close {body rest : List Char} (hb : LtFree body) :
    splitSeg (('<' :: body) ++ rest) =
      ('<' :: (body ++ leadRun rest)) :: splitSeg (segTail rest) := by
  show splitSeg ('<' :: (body ++ rest)) = _
  rw [splitSeg, (takeWhile_all_app rest hb).1, (takeWhile_all_app rest hb).2]
  rfl

theorem segTail_of_leadRun_nil {s : List Char} (h : leadRun s = []) : segTail s = s := by
  cases s with
  | nil => rfl
  | cons c cs =>
    unfold leadRun at h
    rw [List.takeWhile_cons] at h
    split at h
    · exact absurd h (by simp)
    case isFalse hc =>
      unfold segTail
      rw [List.dropWhile_cons]
      simp [hc]

/-- The pointwise relation between the segments of `SwapRel`-related
documents: equal, or a swapped `nm`-element segment. -/
def PairRel (nm V x y : List Char) : Prop :=
  x = y ∨ ∃ o, o ≠ [] ∧ LtFree o ∧
    x = '<' :: ((nm ++ ['>']) ++ o) ∧ y = '<' :: ((nm ++ ['>']) ++ V)

theorem swapRel_segments {nm V : List Char} (hnm : LtFree nm) (hV : LtFree V) :
    ∀ {s t : List Char}, SwapRel (tagOpen nm) (tagClose nm) V s t →
      leadRun s = leadRun t ∧
        List.Forall₂ (PairRel nm V) (splitSeg (segTail s)) (splitSeg (segTail t)) := by
  intro s t h
  induction h with
  | nil =>
    refine ⟨rfl, ?_⟩
    show List.Forall₂ (PairRel nm V) (splitSeg []) (splitSeg [])
    rw [splitSeg_nil]
    exact List.Forall₂.nil
  | keep c h ih =>
    rename_i s' t'
    by_cases hc : c = '<'
    · subst hc
      constructor
      · rfl
      · show List.Forall₂ (PairRel nm V) (splitSeg ('<' :: s')) (splitSeg ('<' :: t'))
        rw [splitSeg, splitSeg]
        refine List.Forall₂.cons (Or.inl ?_) ih.2
        show '<' :: leadRun s' = '<' :: leadRun t'
        rw [ih.1]
    · have hcb : notLt c = true := by simp [notLt, hc]
      constructor
      · show (c :: s').takeWhile notLt = (c :: t').takeWhile notLt
        rw [List.takeWhile_cons, List.takeWhile_cons]
        simp only [hcb, if_true]
        have := ih.1
        unfold leadRun at this
        rw [this]
      · show List.Forall₂ (PairRel nm V)
          (splitSeg ((c :: s').dropWhile notLt)) (splitSeg ((c :: t').dropWhile notLt))
        rw [List.dropWhile_cons, List.dropWhile_cons]
        simp only [hcb, if_true]
        exact ih.2
  | swap o hne hltf h ih =>
    rename_i s' t'
    have e1 : tagOpen nm ++ (o ++ (tagClose nm ++ s')) =
        ('<' :: ((nm ++ ['>']) ++ o)) ++ (('<' :: ('/' :: (nm ++ ['>']))) ++ s') := by
      simp [tagOpen, tagClose]
    have e2 : tagOpen nm ++ (V ++ (tagClose nm ++ t')) =
        ('<' :: ((nm ++ ['>']) ++ V)) ++ (('<' :: ('/' :: (nm ++ ['>']))) ++ t') := by
      simp [tagOpen, tagClose]
    have hbody1 : LtFree ((nm ++ ['>']) ++ o) := by
      intro c hc
      rcases List.mem_append.mp hc with hc | hc
      · rcases List.mem_append.mp hc with hc | hc
        · exact hnm c hc
        · simp at hc
          simp [hc, notLt]
      · exact hltf c hc
    have hbody2 : LtFree ((nm ++ ['>']) ++ V) := by
      intro c hc
      rcases List.mem_append.mp hc with hc | hc
      · rcases List.mem_append.mp hc with hc | hc
        · exact hnm c hc
        · simp at hc
          simp [hc, notLt]
      · exact hV c hc
    have hbody3 : LtFree ('/' :: (nm ++ ['>'])) := by
      intro c hc
      rcases List.mem_cons.mp hc with hc | hc
      · simp [hc, notLt]
      · rcases List.mem_append.mp hc with hc | hc
        · exact hnm c hc
        · simp at hc
          simp [hc, notLt]
    have hH : HeadLt (('<' :: ('/' :: (nm ++ ['>']))) ++ s') := by
      intro x hx
      injection hx with hx
      exact hx.symm
    have hH2 : HeadLt (('<' :: ('/' :: (nm ++ ['>']))) ++ t') := by
      intro x hx
      injection hx with hx
      exact hx.symm
    constructor
    · rfl
    · show List.Forall₂ (PairRel nm V)
        (splitSeg (segTail (tagOpen nm ++ (o ++ (tagClose nm ++ s')))))
        (splitSeg (segTail (tagOpen nm ++ (V ++ (tagClose nm ++ t')))))
      have st1 : segTail (tagOpen nm ++ (o ++ (tagClose nm ++ s'))) =
          tagOpen nm ++ (o ++ (tagClose nm ++ s')) := rfl
      have st2 : segTail (tagOpen nm ++ (V ++ (tagClose nm ++ t'))) =
          tagOpen nm ++ (V ++ (tagClose nm ++ t')) := rfl
      rw [st1, st2, e1, e2, splitSeg_seg hbody1 hH, splitSeg_seg hbody2 hH2,
        splitSeg_close hbody3, splitSeg_close hbody3]
      refine List.Forall₂.cons (Or.inr ⟨o, hne, hltf, rfl, rfl⟩) ?_
      refine List.Forall₂.cons (Or.inl ?_) ih.2
      show '<' :: ('/' :: (nm ++ ['>']) ++ leadRun s') = '<' :: ('/' :: (nm ++ ['>']) ++ leadRun t')
      rw [ih.1]

/-! ### C4: transferring a match across `SwapRel` -/

theorem forall₂_cons_right {α β : Type} {R : α → β → Prop} {xs : List α} {y : β}
    {ys : List β} (h : List.Forall₂ R xs (y :: ys)) :
    ∃ x xs', xs = x :: xs' ∧ R x y ∧ List.Forall₂ R xs' ys := by
  cases h with
  | cons hr ht => exact ⟨_, _, rfl, hr, ht⟩

/-- Splitting a list at the first `>` when neither prefix contains `>`. -/
theorem gtSplit_inj : ∀ {x y u w : List Char}, '>' ∉ x → '>' ∉ y →
    x ++ '>' :: u = y ++ '>' :: w → x = y ∧ u = w := by
  intro x
  induction x with
  | nil =>
    intro y u w _ hy h
    cases y with
    | nil =>
      simp only [List.nil_append] at h
      injection h with _ h2
      exact ⟨rfl, h2⟩
    | cons b bs =>
      simp only [List.nil_append, List.cons_append] at h
      injection h with h1 _
      exact absurd (show ('>' : Char) ∈ b :: bs by rw [h1]; exact List.mem_cons_self _ _) hy
  | cons a as ih =>
    intro y u w hx hy h
    cases y with
    | nil =>
      simp only [List.nil_append, List.cons_append] at h
      injection h with h1 _
      exact absurd (show ('>' : Char) ∈ a :: as by rw [h1]; exact List.mem_cons_self _ _) hx
    | cons b bs =>
      simp only [List.cons_append] at h
      injection h with h1 h2
      have hx' : '>' ∉ as := fun hm => hx (List.mem_cons_of_mem _ hm)
      have hy' : '>' ∉ bs := fun hm => hy (List.mem_cons_of_mem _ hm)
      obtain ⟨e1, e2⟩ := ih hx' hy' h2
      exact ⟨by rw [h1, e1], e2⟩

/-- A swapped-element segment body never starts with `/` when the element
name does not. -/
theorem slot_ne_slash_seg {nm V z : List Char} (hsl : nm.head? ≠ some '/') :
    '/' :: z ≠ (nm ++ ['>']) ++ V := by
  intro h
  cases nm with
  | nil =>
    simp only [List.nil_append, List.cons_append] at h
    injection h with h1 _
    exact absurd h1 (by decide)
  | cons b bs =>
    simp only [List.cons_append] at h
    injection h with h1 _
    exact hsl (by rw [List.head?_cons, ← h1])

/-- A segment consisting of a closing literal followed by a whitespace run
is never a swapped-element segment (the new text is nonempty and contains no
whitespace). -/
theorem slot_ne_ws_seg {nm V lit w : List Char} (hgt : '>' ∉ nm) (hlit : '>' ∉ lit)
    (hVne : V ≠ []) (hVnw : ∀ c ∈ V, isWs c = false) (hw : WsRun w) :
    lit ++ '>' :: w ≠ (nm ++ ['>']) ++ V := by
  intro h
  rw [List.append_assoc] at h
  obtain ⟨_, h2⟩ := gtSplit_inj hgt hlit (show nm ++ '>' :: V = lit ++ '>' :: w from h.symm)
  cases V with
  | nil => exact hVne rfl
  | cons v vs =>
    have hmem : v ∈ w := by rw [← h2]; exact List.mem_cons_self _ _
    have h3 := hw v hmem
    have h4 := hVnw v (List.mem_cons_self _ _)
    rw [h3] at h4
    exact absurd h4 (by simp)

/-- A segment opening a fixed literal element is never a swapped-element
segment for a differently named element. -/
theorem slot_ne_lit_seg {nm V lit cnt : List Char} (hgt : '>' ∉ nm) (hlit : '>' ∉ lit)
    (hne : nm ≠ lit) : lit ++ '>' :: cnt ≠ (nm ++ ['>']) ++ V := by
  intro h
  rw [List.append_assoc] at h
  exact hne (gtSplit_inj hgt hlit (show nm ++ '>' :: V = lit ++ '>' :: cnt from h.symm)).1

theorem headLt_consApp (body B : List Char) : HeadLt (('<' :: body) ++ B) := by
  intro x hx
  injection hx with hx
  exact hx.symm

/-- Consume one segment whose shape rules out a swap: the related document
carries the identical segment. -/
theorem consume_seg {nm V body B : List Char} {xs : List (List Char)}
    (hb : LtFree body) (hB : HeadLt B) (href : body ≠ (nm ++ ['>']) ++ V)
    (h : List.Forall₂ (PairRel nm V) xs (splitSeg (('<' :: body) ++ B))) :
    ∃ xs', xs = ('<' :: body) :: xs' ∧ List.Forall₂ (PairRel nm V) xs' (splitSeg B) := by
  rw [splitSeg_seg hb hB] at h
  obtain ⟨x, xs', hxs, hp, ht⟩ := forall₂_cons_right h
  cases hp with
  | inl he => exact ⟨xs', by rw [hxs, he], ht⟩
  | inr hslot =>
    obtain ⟨o, _, _, _, hy⟩ := hslot
    injection hy with hy1 hy2
    exact absurd hy2 href

/-- Consume the version-content segment: the related document carries the
same open literal with some nonempty `<`-free content (the same content, or
the swapped-in text when the swap relation is over the same element name). -/
theorem consume_openver {nm V lname ver B : List Char} {xs : List (List Char)}
    (hgt : '>' ∉ nm) (hlgt : '>' ∉ lname) (hln : LtFree lname)
    (hv : LtFree ver) (hvne : ver ≠ []) (hB : HeadLt B)
    (h : List.Forall₂ (PairRel nm V) xs
      (splitSeg (('<' :: ((lname ++ ['>']) ++ ver)) ++ B))) :
    ∃ ver' xs', ver' ≠ [] ∧ LtFree ver' ∧
      xs = ('<' :: ((lname ++ ['>']) ++ ver')) :: xs' ∧
      List.Forall₂ (PairRel nm V) xs' (splitSeg B) := by
  have hb : LtFree ((lname ++ ['>']) ++ ver) := by
    intro c hc
    rcases List.mem_append.mp hc with hc | hc
    · rcases List.mem_append.mp hc with hc | hc
      · exact hln c hc
      · simp at hc
        simp [hc, notLt]
    · exact hv c hc
  rw [splitSeg_seg hb hB] at h
  obtain ⟨x, xs', hxs, hp, ht⟩ := forall₂_cons_right h
  cases hp with
  | inl he => exact ⟨ver, xs', hvne, hv, by rw [hxs, he], ht⟩
  | inr hslot =>
    obtain ⟨o, hone, holt, hx, hy⟩ := hslot
    injection hy with hy1 hy2
    have hy3 : lname ++ '>' :: ver = nm ++ '>' :: V := by
      rw [List.append_assoc, List.append_assoc] at hy2
      exact hy2
    obtain ⟨hnmeq, _⟩ := gtSplit_inj hlgt hgt hy3
    refine ⟨o, xs', hone, holt, ?_, ht⟩
    rw [hxs, hx, ← hnmeq]

/-- Consume the optional-element part: the related document carries a valid
(possibly differently filled) optional-element text in the same place. -/
theorem consume_skip {nm V : List Char} (hnm : LtFree nm) (hsl : nm.head? ≠ some '/')
    {sk : List Char} (hsk : SkipTxtOk sk) :
    ∀ {B : List Char} {xs : List (List Char)}, HeadLt B →
      List.Forall₂ (PairRel nm V) xs (splitSeg (sk ++ B)) →
      ∃ sk' xs', SkipTxtOk sk' ∧ xs.flatten = sk' ++ xs'.flatten ∧
        List.Forall₂ (PairRel nm V) xs' (splitSeg B) := by
  induction hsk with
  | nil =>
    intro B xs hB h
    exact ⟨[], xs, SkipTxtOk.nil, rfl, h⟩
  | elem c run1 run2 rest hc h1 h2 hgl hr ih =>
    intro B xs hB h
    have hrB : HeadLt (rest ++ B) := skipTxtOk_headLt hr B hB
    have hb2 : LtFree ('/' :: run2) := by
      intro x hx
      rcases List.mem_cons.mp hx with hx | hx
      · simp [hx, notLt]
      · exact h2 x hx
    by_cases hcl : c = '<'
    · subst hcl
      have e : ('<' :: '<' :: run1 ++ '<' :: '/' :: run2 ++ rest) ++ B =
          '<' :: (('<' :: run1) ++ (('<' :: ('/' :: run2)) ++ (rest ++ B))) := by
        simp
      have e2 : splitSeg (('<' :: '<' :: run1 ++ '<' :: '/' :: run2 ++ rest) ++ B) =
          ['<'] :: ('<' :: run1) :: ('<' :: ('/' :: run2)) :: splitSeg (rest ++ B) := by
        rw [e, splitSeg]
        have t1 : ((('<' :: run1) ++ (('<' :: ('/' :: run2)) ++ (rest ++ B))).takeWhile
            notLt) = [] := rfl
        have t2 : ((('<' :: run1) ++ (('<' :: ('/' :: run2)) ++ (rest ++ B))).dropWhile
            notLt) = ('<' :: run1) ++ (('<' :: ('/' :: run2)) ++ (rest ++ B)) := rfl
        rw [t1, t2, splitSeg_seg h1 (headLt_consApp _ _), splitSeg_seg hb2 hrB]
      rw [e2] at h
      obtain ⟨x1, xs1, hxs1, hp1, h'⟩ := forall₂_cons_right h
      obtain ⟨x2, xs2, hxs2, hp2, h''⟩ := forall₂_cons_right h'
      obtain ⟨x3, xs3, hxs3, hp3, h3⟩ := forall₂_cons_right h''
      have hx1 : x1 = ['<'] := by
        cases hp1 with
        | inl he => exact he
        | inr hslot =>
          obtain ⟨o, _, _, _, hy⟩ := hslot
          injection hy with _ hy2
          exact absurd hy2.symm (by simp)
      have hx2 : ∃ run1', LtFree run1' ∧ x2 = '<' :: run1' := by
        cases hp2 with
        | inl he => exact ⟨run1, h1, he⟩
        | inr hslot =>
          obtain ⟨o, _, holt, hx, _⟩ := hslot
          refine ⟨(nm ++ ['>']) ++ o, ?_, hx⟩
          intro x hx'
          rcases List.mem_append.mp hx' with hx' | hx'
          · rcases List.mem_append.mp hx' with hx' | hx'
            · exact hnm x hx'
            · simp at hx'
              simp [hx', notLt]
          · exact holt x hx'
      obtain ⟨run1', hr1', hx2e⟩ := hx2
      have hx3 : x3 = '<' :: ('/' :: run2) := by
        cases hp3 with
        | inl he => exact he
        | inr hslot =>
          obtain ⟨o, _, _, _, hy⟩ := hslot
          injection hy with _ hy2
          exact absurd hy2 (slot_ne_slash_seg hsl)
      obtain ⟨sk'', xs'', hok, hfl, hfb⟩ := ih hB h3
      refine ⟨'<' :: '<' :: run1' ++ '<' :: '/' :: run2 ++ sk'', xs'', ?_, ?_, hfb⟩
      · exact SkipTxtOk.elem '<' run1' run2 sk'' hc hr1' h2 hgl hok
      · rw [hxs1, hxs2, hxs3, hx1, hx2e, hx3]
        show ['<'] ++ (('<' :: run1') ++ (('<' :: ('/' :: run2)) ++ xs3.flatten)) = _
        rw [hfl]
        simp
    · have hb1 : LtFree (c :: run1) := by
        intro x hx
        rcases List.mem_cons.mp hx with hx | hx
        · rw [hx]
          simp [notLt, hcl]
        · exact h1 x hx
      have e : ('<' :: c :: run1 ++ '<' :: '/' :: run2 ++ rest) ++ B =
          ('<' :: (c :: run1)) ++ (('<' :: ('/' :: run2)) ++ (rest ++ B)) := by
        simp
      rw [e, splitSeg_seg hb1 (headLt_consApp _ _), splitSeg_seg hb2 hrB] at h
      obtain ⟨x1, xs1, hxs1, hp1, h'⟩ := forall₂_cons_right h
      obtain ⟨x2, xs2, hxs2, hp2, h''⟩ := forall₂_cons_right h'
      have hx1 : ∃ run1', LtFree run1' ∧ x1 = '<' :: c :: run1' := by
        cases hp1 with
        | inl he => exact ⟨run1, h1, he⟩
        | inr hslot =>
          obtain ⟨o, _, holt, hx, hy⟩ := hslot
          injection hy with _ hy2
          cases hq : nm ++ ['>'] with
          | nil => exact absurd hq (by simp)
          | cons d q =>
            rw [hq, List.cons_append] at hy2
            injection hy2 with hcd hrun
            refine ⟨q ++ o, ?_, ?_⟩
            · intro x hx'
              rcases List.mem_append.mp hx' with hx' | hx'
              · have hmem : x ∈ nm ++ ['>'] := by
                  rw [hq]
                  exact List.mem_cons_of_mem _ hx'
                rcases List.mem_append.mp hmem with h5 | h5
                · exact hnm x h5
                · simp at h5
                  simp [h5, notLt]
              · exact holt x hx'
            · rw [hx, hq, hcd]
              rfl
      obtain ⟨run1', hr1', hx1e⟩ := hx1
      have hx2 : x2 = '<' :: ('/' :: run2) := by
        cases hp2 with
        | inl he => exact he
        | inr hslot =>
          obtain ⟨o, _, _, _, hy⟩ := hslot
          injection hy with _ hy2
          exact absurd hy2 (slot_ne_slash_seg hsl)
      obtain ⟨sk'', xs'', hok, hfl, hfb⟩ := ih hB h''
      refine ⟨'<' :: c :: run1' ++ '<' :: '/' :: run2 ++ sk'', xs'', ?_, ?_, hfb⟩
      · exact SkipTxtOk.elem c run1' run2 sk'' hc hr1' h2 hgl hok
      · rw [hxs1, hxs2, hx1e, hx2]
        show ('<' :: c :: run1') ++ (('<' :: ('/' :: run2)) ++ xs2.flatten) = _
        rw [hfl]
        simp

/-- Consume the closing segment of the matched element; the pairs beyond it
are unconstrained. -/
theorem consume_close_gen {nm V : List Char} (hsl : nm.head? ≠ some '/')
    {z rest : List Char} {xs : List (List Char)} (hz : LtFree z)
    (h : List.Forall₂ (PairRel nm V) xs (splitSeg (('<' :: ('/' :: z)) ++ rest))) :
    ∃ tail', xs.flatten = ('<' :: ('/' :: z)) ++ tail' := by
  have hb : LtFree ('/' :: z) := by
    intro x hx
    rcases List.mem_cons.mp hx with hx | hx
    · simp [hx, notLt]
    · exact hz x hx
  rw [splitSeg_close hb] at h
  obtain ⟨x, xs', hxs, hp, ht⟩ := forall₂_cons_right h
  have hx : x = '<' :: ('/' :: z ++ leadRun rest) := by
    cases hp with
    | inl he => exact he
    | inr hslot =>
      obtain ⟨o, _, _, _, hy⟩ := hslot
      injection hy with _ hy2
      exact absurd hy2 (slot_ne_slash_seg hsl)
  refine ⟨leadRun rest ++ xs'.flatten, ?_⟩
  rw [hxs, hx]
  show ('<' :: ('/' :: z ++ leadRun rest)) ++ xs'.flatten = _
  simp

theorem wsRun_ltFree {w : List Char} (hw : WsRun w) : LtFree w := by
  intro c hc
  have h := hw c hc
  unfold isWs at h
  simp only [Bool.or_eq_true, beq_iff_eq] at h
  rcases h with ((((h | h) | h) | h) | h) | h <;> simp [h, notLt]

theorem ltFree_append {x y : List Char} (hx : LtFree x) (hy : LtFree y) :
    LtFree (x ++ y) := by
  intro c hc
  rcases List.mem_append.mp hc with h | h
  · exact hx c h
  · exact hy c h

theorem lit_dep_cons : ("<dependency>".toList : List Char) = '<' :: "dependency>".toList := rfl
theorem lit_par_cons : ("<parent>".toList : List Char) = '<' :: "parent>".toList := rfl
theorem lit_gid_cons : ("<groupId>".toList : List Char) = '<' :: "groupId>".toList := rfl
theorem lit_gidc_cons : ("</groupId>".toList : List Char) = '<' :: "/groupId>".toList := rfl
theorem lit_aid_cons : ("<artifactId>".toList : List Char) = '<' :: "artifactId>".toList := rfl
theorem lit_aidc_cons : ("</artifactId>".toList : List Char) = '<' :: "/artifactId>".toList := rfl
theorem lit_vo_cons : vOpen = '<' :: ("version".toList ++ ['>']) := rfl
theorem lit_vc_cons : vClose = '<' :: ('/' :: "version>".toList) := rfl


/-- Carry a dependency-pattern match backwards across the swap relation:
if the rewritten document matches somewhere, so did the original document at
the same place. -/
theorem align_dep {nm V g a s t g1 ver rest : List Char}
    (hnm : LtFree nm) (hgt : '>' ∉ nm) (hsl : nm.head? ≠ some '/')
    (hnm2 : nm ≠ "groupId".toList) (hnm3 : nm ≠ "artifactId".toList)
    (hg : LtFree g) (ha : LtFree a)
    (hVltf : LtFree V) (hVne : V ≠ []) (hVnw : ∀ c ∈ V, isWs c = false)
    (hrel : SwapRel (tagOpen nm) (tagClose nm) V s t)
    (hm : matchDepHere g a t = some (g1, ver, rest)) :
    ∃ r, matchDepHere g a s = some r := by
  obtain ⟨w1, w2, w3, sk, hw1, hw2, hw3, hsk, hvne, hvltf, hg1e, ht⟩ := matchDepHere_iff.mp hm
  have hseg := swapRel_segments hnm hVltf hrel
  subst ht
  have hlt : leadRun (depShape g a w1 w2 w3 sk ver rest) = [] := rfl
  have hls : leadRun s = [] := by rw [hseg.1, hlt]
  have hsegs : List.Forall₂ (PairRel nm V) (splitSeg s)
      (splitSeg (depShape g a w1 w2 w3 sk ver rest)) := by
    have h2 := hseg.2
    rw [segTail_of_leadRun_nil hls, segTail_of_leadRun_nil hlt] at h2
    exact h2
  have e : depShape g a w1 w2 w3 sk ver rest =
      ('<' :: ("dependency>".toList ++ w1)) ++
      (('<' :: ("groupId>".toList ++ g)) ++
      (('<' :: ("/groupId>".toList ++ w2)) ++
      (('<' :: ("artifactId>".toList ++ a)) ++
      (('<' :: ("/artifactId>".toList ++ w3)) ++
      (sk ++
      (('<' :: (("version".toList ++ ['>']) ++ ver)) ++
      (('<' :: ('/' :: "version>".toList)) ++ rest))))))) := by
    simp only [depShape, gidLit, aidLit, lit_dep_cons, lit_gid_cons, lit_gidc_cons,
      lit_aid_cons, lit_aidc_cons, lit_vo_cons, lit_vc_cons, List.cons_append,
      List.append_assoc, List.singleton_append]
  rw [e] at hsegs
  have hb1 : LtFree ("dependency>".toList ++ w1) :=
    ltFree_append (by decide) (wsRun_ltFree hw1)
  have hr1 : "dependency>".toList ++ w1 ≠ (nm ++ ['>']) ++ V :=
    @slot_ne_ws_seg nm V ("dependency".toList) w1 hgt (by decide) hVne hVnw hw1
  have hb2 : LtFree ("groupId>".toList ++ g) := ltFree_append (by decide) hg
  have hr2 : "groupId>".toList ++ g ≠ (nm ++ ['>']) ++ V :=
    @slot_ne_lit_seg nm V ("groupId".toList) g hgt (by decide) hnm2
  have hb3 : LtFree ("/groupId>".toList ++ w2) :=
    ltFree_append (by decide) (wsRun_ltFree hw2)
  have hr3 : "/groupId>".toList ++ w2 ≠ (nm ++ ['>']) ++ V := slot_ne_slash_seg hsl
  have hb4 : LtFree ("artifactId>".toList ++ a) := ltFree_append (by decide) ha
  have hr4 : "artifactId>".toList ++ a ≠ (nm ++ ['>']) ++ V :=
    @slot_ne_lit_seg nm V ("artifactId".toList) a hgt (by decide) hnm3
  have hb5 : LtFree ("/artifactId>".toList ++ w3) :=
    ltFree_append (by decide) (wsRun_ltFree hw3)
  have hr5 : "/artifactId>".toList ++ w3 ≠ (nm ++ ['>']) ++ V := slot_ne_slash_seg hsl
  obtain ⟨xs1, hx1, h1s⟩ := consume_seg hb1 (headLt_consApp _ _) hr1 hsegs
  obtain ⟨xs2, hx2, h2s⟩ := consume_seg hb2 (headLt_consApp _ _) hr2 h1s
  obtain ⟨xs3, hx3, h3s⟩ := consume_seg hb3 (headLt_consApp _ _) hr3 h2s
  obtain ⟨xs4, hx4, h4s⟩ := consume_seg hb4 (headLt_consApp _ _) hr4 h3s
  obtain ⟨xs5, hx5, h5s⟩ := consume_seg hb5
    (skipTxtOk_headLt hsk _ (headLt_consApp _ _)) hr5 h4s
  obtain ⟨sk', xs6, hok, hfl, h6s⟩ := consume_skip hnm hsl hsk (headLt_consApp _ _) h5s
  have hvopen : ('>' : Char) ∉ "version".toList := by decide
  have hvltn : LtFree ("version".toList) := by decide
  obtain ⟨ver', xs7, hv'ne, hv'ltf, hx7, h7s⟩ := consume_openver hgt hvopen
    hvltn hvltf hvne (headLt_consApp _ _) h6s
  have hvz : LtFree ("version>".toList) := by decide
  obtain ⟨tail', hcl⟩ := consume_close_gen hsl hvz h7s
  have f0 : s = ('<' :: ("dependency>".toList ++ w1)) ++
      (('<' :: ("groupId>".toList ++ g)) ++
      (('<' :: ("/groupId>".toList ++ w2)) ++
      (('<' :: ("artifactId>".toList ++ a)) ++
      (('<' :: ("/artifactId>".toList ++ w3)) ++
      (sk' ++
      (('<' :: (("version".toList ++ ['>']) ++ ver')) ++
      (('<' :: ('/' :: "version>".toList)) ++ tail'))))))) := by
    have j := (splitSeg_join s).symm
    rw [hx1, hx2, hx3, hx4, hx5] at j
    simp only [List.flatten_cons] at j
    rw [hfl, hx7] at j
    simp only [List.flatten_cons] at j
    rw [hcl] at j
    exact j
  have e' : ('<' :: ("dependency>".toList ++ w1)) ++
      (('<' :: ("groupId>".toList ++ g)) ++
      (('<' :: ("/groupId>".toList ++ w2)) ++
      (('<' :: ("artifactId>".toList ++ a)) ++
      (('<' :: ("/artifactId>".toList ++ w3)) ++
      (sk' ++
      (('<' :: (("version".toList ++ ['>']) ++ ver')) ++
      (('<' :: ('/' :: "version>".toList)) ++ tail'))))))) =
      depShape g a w1 w2 w3 sk' ver' tail' := by
    simp only [depShape, gidLit, aidLit, lit_dep_cons, lit_gid_cons, lit_gidc_cons,
      lit_aid_cons, lit_aidc_cons, lit_vo_cons, lit_vc_cons, List.cons_append,
      List.append_assoc, List.singleton_append]
  exact ⟨(depG1 g a w1 w2 w3 sk', ver', tail'),
    matchDepHere_iff.mpr ⟨w1, w2, w3, sk', hw1, hw2, hw3, hok, hv'ne, hv'ltf, rfl,
      by rw [f0]; exact e'⟩⟩

/-- Carry a parent-pattern match backwards across the swap relation. -/
theorem align_parent {nm V g a s t g1 ver rest : List Char}
    (hnm : LtFree nm) (hgt : '>' ∉ nm) (hsl : nm.head? ≠ some '/')
    (hnm2 : nm ≠ "groupId".toList) (hnm3 : nm ≠ "artifactId".toList)
    (hg : LtFree g) (ha : LtFree a)
    (hVltf : LtFree V) (hVne : V ≠ []) (hVnw : ∀ c ∈ V, isWs c = false)
    (hrel : SwapRel (tagOpen nm) (tagClose nm) V s t)
    (hm : matchParentHere g a t = some (g1, ver, rest)) :
    ∃ r, matchParentHere g a s = some r := by
  obtain ⟨w1, w2, w3, hw1, hw2, hw3, hvne, hvltf, hg1e, ht⟩ := matchParentHere_iff.mp hm
  have hseg := swapRel_segments hnm hVltf hrel
  subst ht
  have hlt : leadRun (parentShape g a w1 w2 w3 ver rest) = [] := rfl
  have hls : leadRun s = [] := by rw [hseg.1, hlt]
  have hsegs : List.Forall₂ (PairRel nm V) (splitSeg s)
      (splitSeg (parentShape g a w1 w2 w3 ver rest)) := by
    have h2 := hseg.2
    rw [segTail_of_leadRun_nil hls, segTail_of_leadRun_nil hlt] at h2
    exact h2
  have e : parentShape g a w1 w2 w3 ver rest =
      ('<' :: ("parent>".toList ++ w1)) ++
      (('<' :: ("groupId>".toList ++ g)) ++
      (('<' :: ("/groupId>".toList ++ w2)) ++
      (('<' :: ("artifactId>".toList ++ a)) ++
      (('<' :: ("/artifactId>".toList ++ w3)) ++
      (('<' :: (("version".toList ++ ['>']) ++ ver)) ++
      (('<' :: ('/' :: "version>".toList)) ++ rest)))))) := by
    simp only [parentShape, gidLit, aidLit, lit_par_cons, lit_gid_cons, lit_gidc_cons,
      lit_aid_cons, lit_aidc_cons, lit_vo_cons, lit_vc_cons, List.cons_append,
      List.append_assoc, List.singleton_append]
  rw [e] at hsegs
  have hb1 : LtFree ("parent>".toList ++ w1) :=
    ltFree_append (by decide) (wsRun_ltFree hw1)
  have hr1 : "parent>".toList ++ w1 ≠ (nm ++ ['>']) ++ V :=
    @slot_ne_ws_seg nm V ("parent".toList) w1 hgt (by decide) hVne hVnw hw1
  have hb2 : LtFree ("groupId>".toList ++ g) := ltFree_append (by decide) hg
  have hr2 : "groupId>".toList ++ g ≠ (nm ++ ['>']) ++ V :=
    @slot_ne_lit_seg nm V ("groupId".toList) g hgt (by decide) hnm2
  have hb3 : LtFree ("/groupId>".toList ++ w2) :=
    ltFree_append (by decide) (wsRun_ltFree hw2)
  have hr3 : "/groupId>".toList ++ w2 ≠ (nm ++ ['>']) ++ V := slot_ne_slash_seg hsl
  have hb4 : LtFree ("artifactId>".toList ++ a) := ltFree_append (by decide) ha
  have hr4 : "artifactId>".toList ++ a ≠ (nm ++ ['>']) ++ V :=
    @slot_ne_lit_seg nm V ("artifactId".toList) a hgt (by decide) hnm3
  have hb5 : LtFree ("/artifactId>".toList ++ w3) :=
    ltFree_append (by decide) (wsRun_ltFree hw3)
  have hr5 : "/artifactId>".toList ++ w3 ≠ (nm ++ ['>']) ++ V := slot_ne_slash_seg hsl
  obtain ⟨xs1, hx1, h1s⟩ := consume_seg hb1 (headLt_consApp _ _) hr1 hsegs
  obtain ⟨xs2, hx2, h2s⟩ := consume_seg hb2 (headLt_consApp _ _) hr2 h1s
  obtain ⟨xs3, hx3, h3s⟩ := consume_seg hb3 (headLt_consApp _ _) hr3 h2s
  obtain ⟨xs4, hx4, h4s⟩ := consume_seg hb4 (headLt_consApp _ _) hr4 h3s
  obtain ⟨xs5, hx5, h5s⟩ := consume_seg hb5 (headLt_consApp _ _) hr5 h4s
  have hvopen : ('>' : Char) ∉ "version".toList := by decide
  have hvltn : LtFree ("version".toList) := by decide
  obtain ⟨ver', xs7, hv'ne, hv'ltf, hx7, h7s⟩ := consume_openver hgt hvopen
    hvltn hvltf hvne (headLt_consApp _ _) h5s
  have hvz : LtFree ("version>".toList) := by decide
  obtain ⟨tail', hcl⟩ := consume_close_gen hsl hvz h7s
  have f0 : s = ('<' :: ("parent>".toList ++ w1)) ++
      (('<' :: ("groupId>".toList ++ g)) ++
      (('<' :: ("/groupId>".toList ++ w2)) ++
      (('<' :: ("artifactId>".toList ++ a)) ++
      (('<' :: ("/artifactId>".toList ++ w3)) ++
      (('<' :: (("version".toList ++ ['>']) ++ ver')) ++
      (('<' :: ('/' :: "version>".toList)) ++ tail')))))) := by
    have j := (splitSeg_join s).symm
    rw [hx1, hx2, hx3, hx4, hx5, hx7] at j
    simp only [List.flatten_cons] at j
    rw [hcl] at j
    exact j
  have e' : ('<' :: ("parent>".toList ++ w1)) ++
      (('<' :: ("groupId>".toList ++ g)) ++
      (('<' :: ("/groupId>".toList ++ w2)) ++
      (('<' :: ("artifactId>".toList ++ a)) ++
      (('<' :: ("/artifactId>".toList ++ w3)) ++
      (('<' :: (("version".toList ++ ['>']) ++ ver')) ++
      (('<' :: ('/' :: "version>".toList)) ++ tail')))))) =
      parentShape g a w1 w2 w3 ver' tail' := by
    simp only [parentShape, gidLit, aidLit, lit_par_cons, lit_gid_cons, lit_gidc_cons,
      lit_aid_cons, lit_aidc_cons, lit_vo_cons, lit_vc_cons, List.cons_append,
      List.append_assoc, List.singleton_append]
  exact ⟨(parentG1 g a w1 w2 w3, ver', tail'),
    matchParentHere_iff.mpr ⟨w1, w2, w3, hw1, hw2, hw3, hv'ne, hv'ltf, rfl,
      by rw [f0]; exact e'⟩⟩

/-- Carry a property-pattern match backwards across the swap relation for
the same property name. -/
theorem align_prop {nm V s t ver rest : List Char}
    (hnm : LtFree nm) (hgt : '>' ∉ nm) (hsl : nm.head? ≠ some '/')
    (hVltf : LtFree V) (hVne : V ≠ [])
    (hrel : SwapRel (tagOpen nm) (tagClose nm) V s t)
    (hm : matchPropHere nm t = some (ver, rest)) :
    ∃ r, matchPropHere nm s = some r := by
  obtain ⟨hvne, hvltf, ht⟩ := matchPropHere_iff.mp hm
  have hseg := swapRel_segments hnm hVltf hrel
  subst ht
  have hlt : leadRun (propShape nm ver rest) = [] := by
    show leadRun (tagOpen nm ++ (ver ++ (tagClose nm ++ rest))) = []
    rfl
  have hls : leadRun s = [] := by rw [hseg.1, hlt]
  have hsegs : List.Forall₂ (PairRel nm V) (splitSeg s)
      (splitSeg (propShape nm ver rest)) := by
    have h2 := hseg.2
    rw [segTail_of_leadRun_nil hls, segTail_of_leadRun_nil hlt] at h2
    exact h2
  have e : propShape nm ver rest =
      ('<' :: ((nm ++ ['>']) ++ ver)) ++
      (('<' :: ('/' :: (nm ++ ['>']))) ++ rest) := by
    simp only [propShape, tagOpen, tagClose, List.cons_append, List.append_assoc]
  rw [e] at hsegs
  obtain ⟨ver', xs7, hv'ne, hv'ltf, hx7, h7s⟩ := consume_openver hgt hgt
    hnm hvltf hvne (headLt_consApp _ _) hsegs
  obtain ⟨tail', hcl⟩ := consume_close_gen hsl (ltFree_append hnm (by decide)) h7s
  have f0 : s = ('<' :: ((nm ++ ['>']) ++ ver')) ++
      (('<' :: ('/' :: (nm ++ ['>']))) ++ tail') := by
    have j := (splitSeg_join s).symm
    rw [hx7] at j
    simp only [List.flatten_cons] at j
    rw [hcl] at j
    exact j
  have e' : ('<' :: ((nm ++ ['>']) ++ ver')) ++
      (('<' :: ('/' :: (nm ++ ['>']))) ++ tail') =
      propShape nm ver' tail' := by
    simp only [propShape, tagOpen, tagClose, List.cons_append, List.append_assoc]
  exact ⟨(ver', tail'),
    matchPropHere_iff.mpr ⟨hv'ne, hv'ltf, by rw [f0]; exact e'⟩⟩

theorem rematch_parent {g a s g1 ver rest V : List Char} (t : List Char)
    (hm : matchParentHere g a s = some (g1, ver, rest))
    (hVne : V ≠ []) (hVltf : LtFree V) :
    matchParentHere g a (g1 ++ (V ++ (vClose ++ t))) = some (g1, V, t) := by
  obtain ⟨w1, w2, w3, hw1, hw2, hw3, _, _, hg1, _⟩ := matchParentHere_iff.mp hm
  refine matchParentHere_iff.mpr ⟨w1, w2, w3, hw1, hw2, hw3, hVne, hVltf, hg1, ?_⟩
  rw [hg1]
  simp [parentG1, parentShape, List.append_assoc]

theorem rematch_dep {g a s g1 ver rest V : List Char} (t : List Char)
    (hm : matchDepHere g a s = some (g1, ver, rest))
    (hVne : V ≠ []) (hVltf : LtFree V) :
    matchDepHere g a (g1 ++ (V ++ (vClose ++ t))) = some (g1, V, t) := by
  obtain ⟨w1, w2, w3, sk, hw1, hw2, hw3, hsk, _, _, hg1, _⟩ := matchDepHere_iff.mp hm
  refine matchDepHere_iff.mpr ⟨w1, w2, w3, sk, hw1, hw2, hw3, hsk, hVne, hVltf, hg1, ?_⟩
  rw [hg1]
  simp [depG1, depShape, List.append_assoc]

theorem rematch_prop {nm V : List Char} (t : List Char)
    (hVne : V ≠ []) (hVltf : LtFree V) :
    matchPropHere nm (tagOpen nm ++ (V ++ (tagClose nm ++ t))) = some (V, t) :=
  matchPropHere_iff.mpr ⟨hVne, hVltf, rfl⟩

/-- After a parent-pattern global substitution with a clean new version, the
parent pattern still matches and finds exactly the new version. -/
theorem searchParent_after_sub {g a V : List Char}
    (hg : LtFree g) (ha : LtFree a)
    (hVltf : LtFree V) (hVne : V ≠ []) (hVnw : ∀ c ∈ V, isWs c = false) :
    ∀ s : List Char, (searchParent g a s).isSome →
      searchParent g a (subParent g a V s) = some V
  | [] => by
    intro h
    exact absurd h (by simp [searchParent])
  | c :: cs => by
    intro hsome
    cases hm : matchParentHere g a (c :: cs) with
    | some r =>
      obtain ⟨g1, ver, rest⟩ := r
      rw [subParent_eq_match hm]
      have hre := rematch_parent (subParent g a V rest) hm hVne hVltf
      have e : g1 ++ V ++ vClose ++ subParent g a V rest =
          g1 ++ (V ++ (vClose ++ subParent g a V rest)) := by
        simp [List.append_assoc]
      rw [e]
      exact searchParent_of_matchHere hre
    | none =>
      rw [subParent_eq_nomatch hm]
      have hnone : matchParentHere g a (c :: subParent g a V cs) = none := by
        cases hm2 : matchParentHere g a (c :: subParent g a V cs) with
        | none => rfl
        | some r2 =>
          obtain ⟨g2, ver2, rest2⟩ := r2
          have hrel : SwapRel (tagOpen ("version".toList)) (tagClose ("version".toList))
              V (c :: cs) (c :: subParent g a V cs) :=
            SwapRel.keep c (subParent_swapRel g a V cs)
          obtain ⟨r', hr'⟩ := align_parent (by decide) (by decide) (by decide)
            (by decide) (by decide) hg ha hVltf hVne hVnw hrel hm2
          rw [hm] at hr'
          exact absurd hr' (by simp)
      have hsome' : (searchParent g a cs).isSome := by
        unfold searchParent at hsome
        rw [hm] at hsome
        exact hsome
      show searchParent g a (c :: subParent g a V cs) = some V
      unfold searchParent
      rw [hnone]
      exact searchParent_after_sub hg ha hVltf hVne hVnw cs hsome'
termination_by s => s.length
decreasing_by simp

/-- After a dependency-pattern global substitution with a clean new version,
the dependency pattern still matches and finds exactly the new version. -/
theorem searchDep_after_sub {g a V : List Char}
    (hg : LtFree g) (ha : LtFree a)
    (hVltf : LtFree V) (hVne : V ≠ []) (hVnw : ∀ c ∈ V, isWs c = false) :
    ∀ s : List Char, (searchDep g a s).isSome →
      searchDep g a (subDep g a V s) = some V
  | [] => by
    intro h
    exact absurd h (by simp [searchDep])
  | c :: cs => by
    intro hsome
    cases hm : matchDepHere g a (c :: cs) with
    | some r =>
      obtain ⟨g1, ver, rest⟩ := r
      rw [subDep_eq_match hm]
      have hre := rematch_dep (subDep g a V rest) hm hVne hVltf
      have e : g1 ++ V ++ vClose ++ subDep g a V rest =
          g1 ++ (V ++ (vClose ++ subDep g a V rest)) := by
        simp [List.append_assoc]
      rw [e]
      exact searchDep_of_matchHere hre
    | none =>
      rw [subDep_eq_nomatch hm]
      have hnone : matchDepHere g a (c :: subDep g a V cs) = none := by
        cases hm2 : matchDepHere g a (c :: subDep g a V cs) with
        | none => rfl
        | some r2 =>
          obtain ⟨g2, ver2, rest2⟩ := r2
          have hrel : SwapRel (tagOpen ("version".toList)) (tagClose ("version".toList))
              V (c :: cs) (c :: subDep g a V cs) :=
            SwapRel.keep c (subDep_swapRel g a V cs)
          obtain ⟨r', hr'⟩ := align_dep (by decide) (by decide) (by decide)
            (by decide) (by decide) hg ha hVltf hVne hVnw hrel hm2
          rw [hm] at hr'
          exact absurd hr' (by simp)
      have hsome' : (searchDep g a cs).isSome := by
        unfold searchDep at hsome
        rw [hm] at hsome
        exact hsome
      show searchDep g a (c :: subDep g a V cs) = some V
      unfold searchDep
      rw [hnone]
      exact searchDep_after_sub hg ha hVltf hVne hVnw cs hsome'
termination_by s => s.length
decreasing_by simp

/-- After a property-pattern global substitution with a clean new value, the
property pattern still matches and finds exactly the new value. -/
theorem searchProp_after_sub {nm V : List Char}
    (hnm : LtFree nm) (hgt : '>' ∉ nm) (hsl : nm.head? ≠ some '/')
    (hVltf : LtFree V) (hVne : V ≠ []) :
    ∀ s : List Char, (searchProp nm s).isSome →
      searchProp nm (subProp nm V s) = some V
  | [] => by
    intro h
    exact absurd h (by simp [searchProp])
  | c :: cs => by
    intro hsome
    cases hm : matchPropHere nm (c :: cs) with
    | some r =>
      obtain ⟨ver, rest⟩ := r
      rw [subProp_eq_match hm]
      have e : tagOpen nm ++ V ++ tagClose nm ++ subProp nm V (ver, rest).2 =
          tagOpen nm ++ (V ++ (tagClose nm ++ subProp nm V rest)) := by
        simp [List.append_assoc]
      rw [e]
      exact searchProp_of_matchHere (rematch_prop (subProp nm V rest) hVne hVltf)
    | none =>
      rw [subProp_eq_nomatch hm]
      have hnone : matchPropHere nm (c :: subProp nm V cs) = none := by
        cases hm2 : matchPropHere nm (c :: subProp nm V cs) with
        | none => rfl
        | some r2 =>
          obtain ⟨ver2, rest2⟩ := r2
          have hrel : SwapRel (tagOpen nm) (tagClose nm)
              V (c :: cs) (c :: subProp nm V cs) :=
            SwapRel.keep c (subProp_swapRel nm V cs)
          obtain ⟨r', hr'⟩ := align_prop hnm hgt hsl hVltf hVne hrel hm2
          rw [hm] at hr'
          exact absurd hr' (by simp)
      have hsome' : (searchProp nm cs).isSome := by
        unfold searchProp at hsome
        rw [hm] at hsome
        exact hsome
      show searchProp nm (c :: subProp nm V cs) = some V
      unfold searchProp
      rw [hnone]
      exact searchProp_after_sub hnm hgt hsl hVltf hVne cs hsome'
termination_by s => s.length
decreasing_by simp

theorem forall₂_cons_left {α β : Type} {R : α → β → Prop} {x : α} {xs : List α}
    {ys : List β} (h : List.Forall₂ R (x :: xs) ys) :
    ∃ y ys', ys = y :: ys' ∧ R x y ∧ List.Forall₂ R xs ys' := by
  cases h with
  | cons hr ht => exact ⟨_, _, rfl, hr, ht⟩

/-- Forward counterpart of `consume_seg`: a segment that can never be a
swapped element is carried forward unchanged. -/
theorem produce_seg {nm V body B : List Char} {ys : List (List Char)}
    (hb : LtFree body) (hB : HeadLt B)
    (href : ∀ o : List Char, body ≠ (nm ++ ['>']) ++ o)
    (h : List.Forall₂ (PairRel nm V) (splitSeg (('<' :: body) ++ B)) ys) :
    ∃ ys', ys = ('<' :: body) :: ys' ∧
      List.Forall₂ (PairRel nm V) (splitSeg B) ys' := by
  rw [splitSeg_seg hb hB] at h
  obtain ⟨y, ys', hys, hp, ht⟩ := forall₂_cons_left h
  cases hp with
  | inl he => exact ⟨ys', by rw [hys, ← he], ht⟩
  | inr hslot =>
    obtain ⟨o, _, _, hx, _⟩ := hslot
    injection hx with _ hx2
    exact absurd hx2 (href o)

/-- Forward counterpart of `consume_skip`. -/
theorem produce_skip {nm V : List Char} (hnm : LtFree nm) (hsl : nm.head? ≠ some '/')
    (hVltf : LtFree V) {sk : List Char} (hsk : SkipTxtOk sk) :
    ∀ {B : List Char} {ys : List (List Char)}, HeadLt B →
      List.Forall₂ (PairRel nm V) (splitSeg (sk ++ B)) ys →
      ∃ sk' ys', SkipTxtOk sk' ∧ ys.flatten = sk' ++ ys'.flatten ∧
        List.Forall₂ (PairRel nm V) (splitSeg B) ys' := by
  induction hsk with
  | nil =>
    intro B ys hB h
    exact ⟨[], ys, SkipTxtOk.nil, rfl, h⟩
  | elem c run1 run2 rest hc h1 h2 hgl hr ih =>
    intro B ys hB h
    have hrB : HeadLt (rest ++ B) := skipTxtOk_headLt hr B hB
    have hb2 : LtFree ('/' :: run2) := by
      intro x hx
      rcases List.mem_cons.mp hx with hx | hx
      · simp [hx, notLt]
      · exact h2 x hx
    by_cases hcl : c = '<'
    · subst hcl
      have e : ('<' :: '<' :: run1 ++ '<' :: '/' :: run2 ++ rest) ++ B =
          '<' :: (('<' :: run1) ++ (('<' :: ('/' :: run2)) ++ (rest ++ B))) := by
        simp
      have e2 : splitSeg (('<' :: '<' :: run1 ++ '<' :: '/' :: run2 ++ rest) ++ B) =
          ['<'] :: ('<' :: run1) :: ('<' :: ('/' :: run2)) :: splitSeg (rest ++ B) := by
        rw [e, splitSeg]
        have t1 : ((('<' :: run1) ++ (('<' :: ('/' :: run2)) ++ (rest ++ B))).takeWhile
            notLt) = [] := rfl
        have t2 : ((('<' :: run1) ++ (('<' :: ('/' :: run2)) ++ (rest ++ B))).dropWhile
            notLt) = ('<' :: run1) ++ (('<' :: ('/' :: run2)) ++ (rest ++ B)) := rfl
        rw [t1, t2, splitSeg_seg h1 (headLt_consApp _ _), splitSeg_seg hb2 hrB]
      rw [e2] at h
      obtain ⟨y1, ys1, hys1, hp1, h'⟩ := forall₂_cons_left h
      obtain ⟨y2, ys2, hys2, hp2, h''⟩ := forall₂_cons_left h'
      obtain ⟨y3, ys3, hys3, hp3, h3⟩ := forall₂_cons_left h''
      have hy1 : y1 = ['<'] := by
        cases hp1 with
        | inl he => exact he.symm
        | inr hslot =>
          obtain ⟨o, _, _, hx, _⟩ := hslot
          injection hx with _ hx2
          exact absurd hx2.symm (by simp)
      have hy2 : ∃ run1', LtFree run1' ∧ y2 = '<' :: run1' := by
        cases hp2 with
        | inl he => exact ⟨run1, h1, he.symm⟩
        | inr hslot =>
          obtain ⟨o, _, _, _, hy⟩ := hslot
          refine ⟨(nm ++ ['>']) ++ V, ?_, hy⟩
          intro x hx'
          rcases List.mem_append.mp hx' with hx' | hx'
          · rcases List.mem_append.mp hx' with hx' | hx'
            · exact hnm x hx'
            · simp at hx'
              simp [hx', notLt]
          · exact hVltf x hx'
      obtain ⟨run1', hr1', hy2e⟩ := hy2
      have hy3 : y3 = '<' :: ('/' :: run2) := by
        cases hp3 with
        | inl he => exact he.symm
        | inr hslot =>
          obtain ⟨o, _, _, hx, _⟩ := hslot
          injection hx with _ hx2
          exact absurd hx2 (slot_ne_slash_seg hsl)
      obtain ⟨sk'', ys'', hok, hfl, hfb⟩ := ih hB h3
      refine ⟨'<' :: '<' :: run1' ++ '<' :: '/' :: run2 ++ sk'', ys'', ?_, ?_, hfb⟩
      · exact SkipTxtOk.elem '<' run1' run2 sk'' hc hr1' h2 hgl hok
      · rw [hys1, hys2, hys3, hy1, hy2e, hy3]
        show ['<'] ++ (('<' :: run1') ++ (('<' :: ('/' :: run2)) ++ ys3.flatten)) = _
        rw [hfl]
        simp
    · have hb1 : LtFree (c :: run1) := by
        intro x hx
        rcases List.mem_cons.mp hx with hx | hx
        · rw [hx]
          simp [notLt, hcl]
        · exact h1 x hx
      have e : ('<' :: c :: run1 ++ '<' :: '/' :: run2 ++ rest) ++ B =
          ('<' :: (c :: run1)) ++ (('<' :: ('/' :: run2)) ++ (rest ++ B)) := by
        simp
      rw [e, splitSeg_seg hb1 (headLt_consApp _ _), splitSeg_seg hb2 hrB] at h
      obtain ⟨y1, ys1, hys1, hp1, h'⟩ := forall₂_cons_left h
      obtain ⟨y2, ys2, hys2, hp2, h''⟩ := forall₂_cons_left h'
      have hy1 : ∃ run1', LtFree run1' ∧ y1 = '<' :: c :: run1' := by
        cases hp1 with
        | inl he => exact ⟨run1, h1, he.symm⟩
        | inr hslot =>
          obtain ⟨o, _, _, hx, hy⟩ := hslot
          injection hx with _ hx2
          cases hq : nm ++ ['>'] with
          | nil => exact absurd hq (by simp)
          | cons d q =>
            rw [hq, List.cons_append] at hx2
            injection hx2 with hcd hrun
            refine ⟨q ++ V, ?_, ?_⟩
            · intro x hx'
              rcases List.mem_append.mp hx' with hx' | hx'
              · have hmem : x ∈ nm ++ ['>'] := by
                  rw [hq]
                  exact List.mem_cons_of_mem _ hx'
                rcases List.mem_append.mp hmem with h5 | h5
                · exact hnm x h5
                · simp at h5
                  simp [h5, notLt]
              · exact hVltf x hx'
            · rw [hy, hq, hcd]
              rfl
      obtain ⟨run1', hr1', hy1e⟩ := hy1
      have hy2 : y2 = '<' :: ('/' :: run2) := by
        cases hp2 with
        | inl he => exact he.symm
        | inr hslot =>
          obtain ⟨o, _, _, hx, _⟩ := hslot
          injection hx with _ hx2
          exact absurd hx2 (slot_ne_slash_seg hsl)
      obtain ⟨sk'', ys'', hok, hfl, hfb⟩ := ih hB h''
      refine ⟨'<' :: c :: run1' ++ '<' :: '/' :: run2 ++ sk'', ys'', ?_, ?_, hfb⟩
      · exact SkipTxtOk.elem c run1' run2 sk'' hc hr1' h2 hgl hok
      · rw [hys1, hys2, hy1e, hy2]
        show ('<' :: c :: run1') ++ (('<' :: ('/' :: run2)) ++ ys2.flatten) = _
        rw [hfl]
        simp

/-- Forward counterpart of `consume_close_gen`. -/
theorem produce_close {nm V : List Char} (hsl : nm.head? ≠ some '/')
    {z rest : List Char} {ys : List (List Char)} (hz : LtFree z)
    (h : List.Forall₂ (PairRel nm V) (splitSeg (('<' :: ('/' :: z)) ++ rest)) ys) :
    ∃ tail', ys.flatten = ('<' :: ('/' :: z)) ++ tail' := by
  have hb : LtFree ('/' :: z) := by
    intro x hx
    rcases List.mem_cons.mp hx with hx | hx
    · simp [hx, notLt]
    · exact hz x hx
  rw [splitSeg_close hb] at h
  obtain ⟨y, ys', hys, hp, ht⟩ := forall₂_cons_left h
  have hy : y = '<' :: ('/' :: z ++ leadRun rest) := by
    cases hp with
    | inl he => exact he.symm
    | inr hslot =>
      obtain ⟨o, _, _, hx, _⟩ := hslot
      injection hx with _ hx2
      exact absurd hx2 (slot_ne_slash_seg hsl)
  refine ⟨leadRun rest ++ ys'.flatten, ?_⟩
  rw [hys, hy]
  show ('<' :: ('/' :: z ++ leadRun rest)) ++ ys'.flatten = _
  simp

/-- Carry a dependency-pattern match forward across the swap relation for a
property name distinct from the structural element names: the rewritten
document matches with the same version text. -/
theorem align_dep_fwd {nm V g a s t g1 ver rest : List Char}
    (hnm : LtFree nm) (hgt : '>' ∉ nm) (hsl : nm.head? ≠ some '/')
    (hnm2 : nm ≠ "groupId".toList) (hnm3 : nm ≠ "artifactId".toList)
    (hnm4 : nm ≠ "dependency".toList) (hnm5 : nm ≠ "version".toList)
    (hg : LtFree g) (ha : LtFree a) (hVltf : LtFree V)
    (hrel : SwapRel (tagOpen nm) (tagClose nm) V s t)
    (hm : matchDepHere g a s = some (g1, ver, rest)) :
    ∃ g1' rest', matchDepHere g a t = some (g1', ver, rest') := by
  obtain ⟨w1, w2, w3, sk, hw1, hw2, hw3, hsk, hvne, hvltf, hg1e, hs⟩ := matchDepHere_iff.mp hm
  have hseg := swapRel_segments hnm hVltf hrel
  subst hs
  have hls : leadRun (depShape g a w1 w2 w3 sk ver rest) = [] := rfl
  have hlt : leadRun t = [] := by rw [← hseg.1, hls]
  have hsegs : List.Forall₂ (PairRel nm V)
      (splitSeg (depShape g a w1 w2 w3 sk ver rest)) (splitSeg t) := by
    have h2 := hseg.2
    rw [segTail_of_leadRun_nil hls, segTail_of_leadRun_nil hlt] at h2
    exact h2
  have e : depShape g a w1 w2 w3 sk ver rest =
      ('<' :: ("dependency>".toList ++ w1)) ++
      (('<' :: ("groupId>".toList ++ g)) ++
      (('<' :: ("/groupId>".toList ++ w2)) ++
      (('<' :: ("artifactId>".toList ++ a)) ++
      (('<' :: ("/artifactId>".toList ++ w3)) ++
      (sk ++
      (('<' :: (("version".toList ++ ['>']) ++ ver)) ++
      (('<' :: ('/' :: "version>".toList)) ++ rest))))))) := by
    simp only [depShape, gidLit, aidLit, lit_dep_cons, lit_gid_cons, lit_gidc_cons,
      lit_aid_cons, lit_aidc_cons, lit_vo_cons, lit_vc_cons, List.cons_append,
      List.append_assoc, List.singleton_append]
  rw [e] at hsegs
  have hb1 : LtFree ("dependency>".toList ++ w1) :=
    ltFree_append (by decide) (wsRun_ltFree hw1)
  have hr1 : ∀ o : List Char, "dependency>".toList ++ w1 ≠ (nm ++ ['>']) ++ o :=
    fun o => @slot_ne_lit_seg nm o ("dependency".toList) w1 hgt (by decide) hnm4
  have hb2 : LtFree ("groupId>".toList ++ g) := ltFree_append (by decide) hg
  have hr2 : ∀ o : List Char, "groupId>".toList ++ g ≠ (nm ++ ['>']) ++ o :=
    fun o => @slot_ne_lit_seg nm o ("groupId".toList) g hgt (by decide) hnm2
  have hb3 : LtFree ("/groupId>".toList ++ w2) :=
    ltFree_append (by decide) (wsRun_ltFree hw2)
  have hr3 : ∀ o : List Char, "/groupId>".toList ++ w2 ≠ (nm ++ ['>']) ++ o :=
    fun o => slot_ne_slash_seg hsl
  have hb4 : LtFree ("artifactId>".toList ++ a) := ltFree_append (by decide) ha
  have hr4 : ∀ o : List Char, "artifactId>".toList ++ a ≠ (nm ++ ['>']) ++ o :=
    fun o => @slot_ne_lit_seg nm o ("artifactId".toList) a hgt (by decide) hnm3
  have hb5 : LtFree ("/artifactId>".toList ++ w3) :=
    ltFree_append (by decide) (wsRun_ltFree hw3)
  have hr5 : ∀ o : List Char, "/artifactId>".toList ++ w3 ≠ (nm ++ ['>']) ++ o :=
    fun o => slot_ne_slash_seg hsl
  have hb6 : LtFree (("version".toList ++ ['>']) ++ ver) :=
    ltFree_append (ltFree_append (by decide) (by decide)) hvltf
  have hr6 : ∀ o : List Char, ("version".toList ++ ['>']) ++ ver ≠ (nm ++ ['>']) ++ o :=
    fun o => @slot_ne_lit_seg nm o ("version".toList) ver hgt (by decide)
      (fun hh => hnm5 hh)
  obtain ⟨ys1, hy1, h1s⟩ := produce_seg hb1 (headLt_consApp _ _) hr1 hsegs
  obtain ⟨ys2, hy2, h2s⟩ := produce_seg hb2 (headLt_consApp _ _) hr2 h1s
  obtain ⟨ys3, hy3, h3s⟩ := produce_seg hb3 (headLt_consApp _ _) hr3 h2s
  obtain ⟨ys4, hy4, h4s⟩ := produce_seg hb4 (headLt_consApp _ _) hr4 h3s
  obtain ⟨ys5, hy5, h5s⟩ := produce_seg hb5
    (skipTxtOk_headLt hsk _ (headLt_consApp _ _)) hr5 h4s
  obtain ⟨sk', ys6, hok, hfl, h6s⟩ := produce_skip hnm hsl hVltf hsk
    (headLt_consApp _ _) h5s
  obtain ⟨ys7, hy7, h7s⟩ := produce_seg hb6 (headLt_consApp _ _) hr6 h6s
  have hvz : LtFree ("version>".toList) := by decide
  obtain ⟨tail', hcl⟩ := produce_close hsl hvz h7s
  have f0 : t = ('<' :: ("dependency>".toList ++ w1)) ++
      (('<' :: ("groupId>".toList ++ g)) ++
      (('<' :: ("/groupId>".toList ++ w2)) ++
      (('<' :: ("artifactId>".toList ++ a)) ++
      (('<' :: ("/artifactId>".toList ++ w3)) ++
      (sk' ++
      (('<' :: (("version".toList ++ ['>']) ++ ver)) ++
      (('<' :: ('/' :: "version>".toList)) ++ tail'))))))) := by
    have j : t = (splitSeg t).flatten := (splitSeg_join t).symm
    rw [hy1, hy2, hy3, hy4, hy5] at j
    simp only [List.flatten_cons] at j
    rw [hfl, hy7] at j
    simp only [List.flatten_cons] at j
    rw [hcl] at j
    exact j
  have e' : ('<' :: ("dependency>".toList ++ w1)) ++
      (('<' :: ("groupId>".toList ++ g)) ++
      (('<' :: ("/groupId>".toList ++ w2)) ++
      (('<' :: ("artifactId>".toList ++ a)) ++
      (('<' :: ("/artifactId>".toList ++ w3)) ++
      (sk' ++
      (('<' :: (("version".toList ++ ['>']) ++ ver)) ++
      (('<' :: ('/' :: "version>".toList)) ++ tail'))))))) =
      depShape g a w1 w2 w3 sk' ver tail' := by
    simp only [depShape, gidLit, aidLit, lit_dep_cons, lit_gid_cons, lit_gidc_cons,
      lit_aid_cons, lit_aidc_cons, lit_vo_cons, lit_vc_cons, List.cons_append,
      List.append_assoc, List.singleton_append]
  exact ⟨depG1 g a w1 w2 w3 sk', tail',
    matchDepHere_iff.mpr ⟨w1, w2, w3, sk', hw1, hw2, hw3, hok, hvne, hvltf, rfl,
      by rw [f0]; exact e'⟩⟩

theorem searchDep_cons (g a : List Char) (c : Char) (cs : List Char) :
    searchDep g a (c :: cs) =
      match matchDepHere g a (c :: cs) with
      | some r => some r.2.1
      | none => searchDep g a cs := rfl

theorem matchDepHere_not_lt {g a : List Char} {c : Char} {X : List Char}
    (hc : notLt c = true) : matchDepHere g a (c :: X) = none := by
  cases hd : dropLit "<dependency>".toList (c :: X) with
  | none =>
    unfold matchDepHere
    rw [hd]
  | some s1 =>
    have he := dropLit_eq.mp hd
    have hc' : c = '<' := by
      have e : some c = some '<' := by
        have e0 : (c :: X).head? = ("<dependency>".toList ++ s1).head? := by rw [he]
        exact e0
      injection e with e1
    rw [hc'] at hc
    exact absurd hc (by decide)

theorem matchDepHere_tagOpen_none {g a nm X : List Char}
    (hgt : '>' ∉ nm) (hnd : nm ≠ "dependency".toList) :
    matchDepHere g a ('<' :: ((nm ++ ['>']) ++ X)) = none := by
  cases hd : dropLit "<dependency>".toList ('<' :: ((nm ++ ['>']) ++ X)) with
  | none =>
    unfold matchDepHere
    rw [hd]
  | some s1 =>
    have he := dropLit_eq.mp hd
    have he2 : (nm ++ ['>']) ++ X = "dependency>".toList ++ s1 := by
      have e : '<' :: ((nm ++ ['>']) ++ X) = '<' :: ("dependency>".toList ++ s1) := he
      injection e
    rw [List.append_assoc] at he2
    exact absurd (gtSplit_inj hgt (by decide)
      (show nm ++ '>' :: X = "dependency".toList ++ '>' :: s1 from he2)).1 hnd

theorem matchDepHere_slash_none {g a X : List Char} :
    matchDepHere g a ('<' :: '/' :: X) = none := by
  cases hd : dropLit "<dependency>".toList ('<' :: '/' :: X) with
  | none =>
    unfold matchDepHere
    rw [hd]
  | some s1 =>
    have he := dropLit_eq.mp hd
    have hcd : ('/' : Char) = 'd' := by
      have e : '<' :: '/' :: X = '<' :: 'd' :: ("ependency>".toList ++ s1) := he
      injection e with _ e2
      injection e2 with e3 _
    exact absurd hcd (by decide)

/-- Searching skips over a `<`-free run. -/
theorem searchDep_skipRun {g a : List Char} :
    ∀ {w : List Char}, LtFree w → ∀ X, searchDep g a (w ++ X) = searchDep g a X := by
  intro w
  induction w with
  | nil =>
    intro _ X
    rfl
  | cons c cs ih =>
    intro hw X
    have hc : notLt c = true := hw c (List.mem_cons_self _ _)
    show searchDep g a (c :: (cs ++ X)) = _
    rw [searchDep_cons, matchDepHere_not_lt hc]
    exact ih (fun x hx => hw x (List.mem_cons_of_mem _ hx)) X

/-- The leftmost dependency-pattern match is unchanged by rewriting the
definition of a property whose name is distinct from the structural element
names. -/
theorem searchDep_swapRel {nm V g a : List Char}
    (hnm : LtFree nm) (hgt : '>' ∉ nm) (hsl : nm.head? ≠ some '/')
    (hnm2 : nm ≠ "groupId".toList) (hnm3 : nm ≠ "artifactId".toList)
    (hnm4 : nm ≠ "dependency".toList) (hnm5 : nm ≠ "version".toList)
    (hg : LtFree g) (ha : LtFree a)
    (hVltf : LtFree V) (hVne : V ≠ []) (hVnw : ∀ c ∈ V, isWs c = false) :
    ∀ {s t : List Char}, SwapRel (tagOpen nm) (tagClose nm) V s t →
      searchDep g a s = searchDep g a t := by
  intro s t h
  induction h with
  | nil => rfl
  | keep c h ih =>
    rename_i s' t'
    cases hm : matchDepHere g a (c :: s') with
    | some r =>
      obtain ⟨g1, ver, rest⟩ := r
      obtain ⟨g1', rest', hm'⟩ := align_dep_fwd hnm hgt hsl hnm2 hnm3 hnm4 hnm5
        hg ha hVltf (SwapRel.keep c h) hm
      rw [searchDep_cons g a c s', searchDep_cons g a c t', hm, hm']
    | none =>
      have hm' : matchDepHere g a (c :: t') = none := by
        cases hm2 : matchDepHere g a (c :: t') with
        | none => rfl
        | some r2 =>
          obtain ⟨g2, v2, r2'⟩ := r2
          obtain ⟨r', hr'⟩ := align_dep hnm hgt hsl hnm2 hnm3 hg ha hVltf hVne hVnw
            (SwapRel.keep c h) hm2
          rw [hm] at hr'
          exact absurd hr' (by simp)
      rw [searchDep_cons g a c s', searchDep_cons g a c t', hm, hm']
      exact ih
  | swap o hone holt h ih =>
    rename_i s' t'
    have hnmgt : LtFree (nm ++ ['>']) := ltFree_append hnm (by decide)
    have hslnm : LtFree ('/' :: (nm ++ ['>'])) := by
      intro x hx
      rcases List.mem_cons.mp hx with hx | hx
      · simp [hx, notLt]
      · exact hnmgt x hx
    have walk : ∀ Y : List Char,
        searchDep g a (tagOpen nm ++ (Y ++ (tagClose nm ++ s'))) = searchDep g a s' →
        True := fun _ _ => trivial
    have step1 : ∀ (Y R : List Char), LtFree Y →
        searchDep g a (tagOpen nm ++ (Y ++ (tagClose nm ++ R))) = searchDep g a R := by
      intro Y R hY
      have h0 : searchDep g a (tagOpen nm ++ (Y ++ (tagClose nm ++ R))) =
          searchDep g a ((nm ++ ['>']) ++ (Y ++ (tagClose nm ++ R))) := by
        show searchDep g a ('<' :: ((nm ++ ['>']) ++ (Y ++ (tagClose nm ++ R)))) = _
        rw [searchDep_cons, matchDepHere_tagOpen_none hgt hnm4]
      rw [h0, searchDep_skipRun hnmgt, searchDep_skipRun hY]
      have h1 : searchDep g a (tagClose nm ++ R) =
          searchDep g a (('/' :: (nm ++ ['>'])) ++ R) := by
        show searchDep g a ('<' :: (('/' :: (nm ++ ['>'])) ++ R)) = _
        rw [searchDep_cons, show matchDepHere g a ('<' :: (('/' :: (nm ++ ['>'])) ++ R)) =
          none from matchDepHere_slash_none]
      rw [h1, searchDep_skipRun hslnm]
    rw [step1 o s' holt, step1 V t' hVltf]
    exact ih

theorem strip_of_nows {V : List Char} (h : ∀ c ∈ V, isWs c = false) : strip V = V := by
  unfold strip stripEnd
  have h1 : V.dropWhile isWs = V := by
    cases V with
    | nil => rfl
    | cons c cs =>
      rw [List.dropWhile_cons]
      simp [h c (List.mem_cons_self _ _)]
  rw [h1]
  have h2 : V.reverse.dropWhile isWs = V.reverse := by
    cases hv : V.reverse with
    | nil => rfl
    | cons c cs =>
      rw [List.dropWhile_cons]
      have hc : isWs c = false := h c (List.mem_reverse.mp (by
        rw [hv]
        exact List.mem_cons_self _ _))
      simp [hc]
  rw [h2, List.reverse_reverse]

theorem findOthers_none_fix {pom nm V : List Char} :
    ∀ {l : List (List Char × List Char)},
      (findPropertyInOthers pom nm V l).2.1 = none →
      (findPropertyInOthers pom nm V l).2.2.1 = [] := by
  intro l
  induction l with
  | nil =>
    intro _
    rfl
  | cons qd rest ih =>
    obtain ⟨q, d⟩ := qd
    intro h
    cases hsp : searchProp nm d with
    | none =>
      have e : findPropertyInOthers pom nm V ((q, d) :: rest) =
          findPropertyInOthers pom nm V rest := by
        conv_lhs => rw [findPropertyInOthers]
        simp only [hsp]
      rw [e] at h ⊢
      exact ih h
    | some pver =>
      by_cases heq : strip pver = V
      · rw [findOthers_hit_noop hsp heq]
      · by_cases hsnap : hasSub snapshotMark (strip pver) = true
        · rw [findOthers_hit_snap hsp heq hsnap]
        · rw [Bool.not_eq_true] at hsnap
          rw [findOthers_hit_go hsp heq hsnap] at h
          exact absurd h (by simp)

/-- C4, counterexample.  With the whitespace-padded target `"1.4.4 "` the
first application rewrites `dParent`; the second application finds the padded
text again, strips it to `"1.4.4"`, sees it differ from the target, rewrites
once more and reports the old version `"1.4.4"` — so the second application
does not report "no old version" as the claim demands. -/
theorem idempotence_counterexample :
    (update_parent_version dParent coordG coordA ("1.4.4 ".toList)).2.1 =
        some ("1.4.2".toList) ∧
    (update_parent_version (update_parent_version dParent coordG coordA
        ("1.4.4 ".toList)).1 coordG coordA ("1.4.4 ".toList)).2.1 =
      some ("1.4.4".toList) := by
  decide

/-- C4 (amended).  For a clean target version — nonempty, free of `<`,
whitespace and backslashes, and not itself a property reference — and
`<`-free coordinates, the rewrite is idempotent: (i) parent scope: the second
application leaves the once-rewritten document unchanged and reports no old
version; (ii) dependency scope with a literal version: likewise, for any
supplied mappings, with an empty map of extra updated files; (iii) dependency
scope via a property defined in the declaring document itself, for a property
name free of `<`/`>`, not beginning with `/` and distinct from the structural
element names: likewise; (iv) dependency scope via a property defined in
another supplied document: re-running against the updated mapping returns the
declaring document unchanged, no old version, and an empty map; (v) every
invocation that reports no old version left its document unchanged with an
empty map, so re-running it verbatim is a no-op. -/
theorem rewrite_idempotent (g a V : List Char)
    (hg : LtFree g) (ha : LtFree a)
    (hVne : V ≠ []) (hVltf : LtFree V) (hVnw : ∀ c ∈ V, isWs c = false)
    (hpV : propRefName V = none) (hbs : '\\' ∉ V) :
    (∀ pom : List Char,
      (update_parent_version (update_parent_version pom g a V).1 g a V).1 =
          (update_parent_version pom g a V).1 ∧
      (update_parent_version (update_parent_version pom g a V).1 g a V).2.1 = none) ∧
    (∀ (pom ver : List Char) (all all₂ : List (List Char × List Char)),
      searchDep g a pom = some ver → propRefName (strip ver) = none →
      (update_dependency_version (update_dependency_version pom g a V all).1
          g a V all₂).1 = (update_dependency_version pom g a V all).1 ∧
      (update_dependency_version (update_dependency_version pom g a V all).1
          g a V all₂).2.1 = none ∧
      (update_dependency_version (update_dependency_version pom g a V all).1
          g a V all₂).2.2.1 = []) ∧
    (∀ (pom ver nm : List Char) (all all₂ : List (List Char × List Char)),
      searchDep g a pom = some ver → propRefName (strip ver) = some nm →
      (searchProp nm pom).isSome = true →
      LtFree nm → '>' ∉ nm → nm.head? ≠ some '/' →
      nm ≠ "version".toList → nm ≠ "groupId".toList → nm ≠ "artifactId".toList →
      nm ≠ "dependency".toList →
      (update_dependency_version (update_dependency_version pom g a V all).1
          g a V all₂).1 = (update_dependency_version pom g a V all).1 ∧
      (update_dependency_version (update_dependency_version pom g a V all).1
          g a V all₂).2.1 = none ∧
      (update_dependency_version (update_dependency_version pom g a V all).1
          g a V all₂).2.2.1 = []) ∧
    (∀ (pom ver nm p c pver : List Char) (pre post : List (List Char × List Char)),
      searchDep g a pom = some ver → propRefName (strip ver) = some nm →
      searchProp nm pom = none →
      LtFree nm → '>' ∉ nm → nm.head? ≠ some '/' →
      (∀ q d, (q, d) ∈ pre → searchProp nm d = none) →
      searchProp nm c = some pver → strip pver ≠ V →
      hasSub snapshotMark (strip pver) = false →
      update_dependency_version pom g a V (pre ++ (p, c) :: post) =
          (pom, some (strip pver), [(p, subProp nm V c)], []) ∧
      update_dependency_version pom g a V (pre ++ (p, subProp nm V c) :: post) =
          (pom, none, [], [])) ∧
    (∀ (pom : List Char) (all : List (List Char × List Char)),
      (update_dependency_version pom g a V all).2.1 = none →
      (update_dependency_version pom g a V all).1 = pom ∧
      (update_dependency_version pom g a V all).2.2.1 = []) := by
  refine ⟨?_, ?_, ?_, ?_, ?_⟩
  · -- (i) parent scope
    intro pom
    cases hs : searchParent g a pom with
    | none =>
      rw [update_parent_nomatch hs]
      show (update_parent_version pom g a V).1 = pom ∧
        (update_parent_version pom g a V).2.1 = none
      rw [update_parent_nomatch hs]
      exact ⟨rfl, rfl⟩
    | some ver =>
      by_cases heq : strip ver = V
      · rw [update_parent_noop hs heq]
        show (update_parent_version pom g a V).1 = pom ∧
          (update_parent_version pom g a V).2.1 = none
        rw [update_parent_noop hs heq]
        exact ⟨rfl, rfl⟩
      · by_cases hsnap : hasSub snapshotMark (strip ver) = true
        · rw [update_parent_snap hs heq hsnap]
          show (update_parent_version pom g a V).1 = pom ∧
            (update_parent_version pom g a V).2.1 = none
          rw [update_parent_snap hs heq hsnap]
          exact ⟨rfl, rfl⟩
        · rw [Bool.not_eq_true] at hsnap
          rw [update_parent_go hs heq hsnap]
          show (update_parent_version (subParent g a V pom) g a V).1 =
              subParent g a V pom ∧
            (update_parent_version (subParent g a V pom) g a V).2.1 = none
          have hs2 : searchParent g a (subParent g a V pom) = some V :=
            searchParent_after_sub hg ha hVltf hVne hVnw pom (by rw [hs]; rfl)
          rw [update_parent_noop hs2 (strip_of_nows hVnw)]
          exact ⟨rfl, rfl⟩
  · -- (ii) dependency scope, literal version
    intro pom ver all all₂ hs hp
    by_cases heq : strip ver = V
    · rw [update_dep_noop hs hp heq]
      show (update_dependency_version pom g a V all₂).1 = pom ∧
        (update_dependency_version pom g a V all₂).2.1 = none ∧
        (update_dependency_version pom g a V all₂).2.2.1 = []
      rw [update_dep_noop hs hp heq]
      exact ⟨rfl, rfl, rfl⟩
    · by_cases hsnap : hasSub snapshotMark (strip ver) = true
      · rw [update_dep_snap hs hp heq hsnap]
        show (update_dependency_version pom g a V all₂).1 = pom ∧
          (update_dependency_version pom g a V all₂).2.1 = none ∧
          (update_dependency_version pom g a V all₂).2.2.1 = []
        rw [update_dep_snap hs hp heq hsnap]
        exact ⟨rfl, rfl, rfl⟩
      · rw [Bool.not_eq_true] at hsnap
        rw [update_dep_go hs hp heq hsnap]
        show (update_dependency_version (subDep g a V pom) g a V all₂).1 =
            subDep g a V pom ∧
          (update_dependency_version (subDep g a V pom) g a V all₂).2.1 = none ∧
          (update_dependency_version (subDep g a V pom) g a V all₂).2.2.1 = []
        have hs2 : searchDep g a (subDep g a V pom) = some V :=
          searchDep_after_sub hg ha hVltf hVne hVnw pom (by rw [hs]; rfl)
        have hp2 : propRefName (strip V) = none := by
          rw [strip_of_nows hVnw]
          exact hpV
        rw [update_dep_noop hs2 hp2 (strip_of_nows hVnw)]
        exact ⟨rfl, rfl, rfl⟩
  · -- (iii) dependency scope, property defined in the declaring document
    intro pom ver nm all all₂ hs hp hsp hnm hgtn hsln hnm5 hnm2 hnm3 hnm4
    obtain ⟨pver, hpv⟩ := Option.isSome_iff_exists.mp hsp
    rw [update_dep_prop hs hp]
    by_cases heq : strip pver = V
    · rw [update_prop_cur_noop hpv heq]
      show (update_dependency_version pom g a V all₂).1 = pom ∧
        (update_dependency_version pom g a V all₂).2.1 = none ∧
        (update_dependency_version pom g a V all₂).2.2.1 = []
      rw [update_dep_prop hs hp, update_prop_cur_noop hpv heq]
      exact ⟨rfl, rfl, rfl⟩
    · by_cases hsnap : hasSub snapshotMark (strip pver) = true
      · rw [update_prop_cur_snap hpv heq hsnap]
        show (update_dependency_version pom g a V all₂).1 = pom ∧
          (update_dependency_version pom g a V all₂).2.1 = none ∧
          (update_dependency_version pom g a V all₂).2.2.1 = []
        rw [update_dep_prop hs hp, update_prop_cur_snap hpv heq hsnap]
        exact ⟨rfl, rfl, rfl⟩
      · rw [Bool.not_eq_true] at hsnap
        rw [update_prop_cur_go hpv heq hsnap]
        show (update_dependency_version (subProp nm V pom) g a V all₂).1 =
            subProp nm V pom ∧
          (update_dependency_version (subProp nm V pom) g a V all₂).2.1 = none ∧
          (update_dependency_version (subProp nm V pom) g a V all₂).2.2.1 = []
        have hs2 : searchDep g a (subProp nm V pom) = some ver := by
          rw [← searchDep_swapRel hnm hgtn hsln hnm2 hnm3 hnm4 hnm5 hg ha hVltf hVne
            hVnw (subProp_swapRel nm V pom)]
          exact hs
        rw [update_dep_prop hs2 hp]
        have hsp2 : searchProp nm (subProp nm V pom) = some V :=
          searchProp_after_sub hnm hgtn hsln hVltf hVne pom (by rw [hpv]; rfl)
        rw [update_prop_cur_noop hsp2 (strip_of_nows hVnw)]
        exact ⟨rfl, rfl, rfl⟩
  · -- (iv) dependency scope, property defined in another supplied document
    intro pom ver nm p c pver pre post hs hp hspn hnm hgtn hsln hpre hpc hne hsnap
    constructor
    · rw [update_dep_prop hs hp, update_prop_others hspn, findOthers_skip hpre,
        findOthers_hit_go hpc hne hsnap]
    · rw [update_dep_prop hs hp, update_prop_others hspn, findOthers_skip hpre]
      have hsp2 : searchProp nm (subProp nm V c) = some V :=
        searchProp_after_sub hnm hgtn hsln hVltf hVne c (by rw [hpc]; rfl)
      rw [findOthers_hit_noop hsp2 (strip_of_nows hVnw)]
  · -- (v) a refusal is a fixpoint
    intro pom all h
    cases hs : searchDep g a pom with
    | none =>
      rw [update_dep_nomatch hs]
      exact ⟨rfl, rfl⟩
    | some ver =>
      cases hpr : propRefName (strip ver) with
      | none =>
        by_cases heq : strip ver = V
        · rw [update_dep_noop hs hpr heq]
          exact ⟨rfl, rfl⟩
        · by_cases hsnap : hasSub snapshotMark (strip ver) = true
          · rw [update_dep_snap hs hpr heq hsnap]
            exact ⟨rfl, rfl⟩
          · rw [Bool.not_eq_true] at hsnap
            rw [update_dep_go hs hpr heq hsnap] at h
            exact absurd h (by simp)
      | some nm =>
        rw [update_dep_prop hs hpr] at h ⊢
        cases hsp : searchProp nm pom with
        | some pver =>
          by_cases heq : strip pver = V
          · rw [update_prop_cur_noop hsp heq]
            exact ⟨rfl, rfl⟩
          · by_cases hsnap : hasSub snapshotMark (strip pver) = true
            · rw [update_prop_cur_snap hsp heq hsnap]
              exact ⟨rfl, rfl⟩
            · rw [Bool.not_eq_true] at hsnap
              rw [update_prop_cur_go hsp heq hsnap] at h
              exact absurd h (by simp)
        | none =>
          rw [update_prop_others hsp] at h ⊢
          exact ⟨findOthers_fst pom nm V all, findOthers_none_fix h⟩

theorem rewrite_idempotent_witness :
    (update_parent_version (update_parent_version dParent coordG coordA
        ("1.4.4".toList)).1 coordG coordA ("1.4.4".toList)).1 =
      (update_parent_version dParent coordG coordA ("1.4.4".toList)).1 ∧
    (update_parent_version (update_parent_version dParent coordG coordA
        ("1.4.4".toList)).1 coordG coordA ("1.4.4".toList)).2.1 = none :=
  (rewrite_idempotent coordG coordA ("1.4.4".toList) (by decide) (by decide)
    (by decide) (by decide) (by decide) (by decide) (by decide)).1 dParent
